import Mathlib

/-!
Verification of the Vexorbis swarm orchestration kernel.

This file gives a shallow embedding, in Lean 4, of the parts of the
`mcp_core` Python package that the specification's testable properties
talk about, and proves (or refutes) those properties against the
embedding.  Python strings are modelled as `List Char`, Python floats as
`ℚ` (exact arithmetic) except where a square root forces `ℝ`, Python
dicts as insertion-ordered association lists, and external effects (the
LLM, the embedding provider, git, the telemetry database) as explicit
oracle parameters.  Each definition is translated from one named Python
function; a comment on the definition names its source.
-/

/-- Python strings are modelled as lists of characters. -/
abbrev Str := List Char

/-- Membership of a character in the Python `str.strip` whitespace set
(`" \t\n\r\x0b\x0c"`). -/
def pyIsSpace (c : Char) : Bool :=
  c = ' ' || c = '\t' || c = '\n' || c = '\r' || c = '\x0b' || c = '\x0c'

/-- Python `str.lstrip()`. -/
def pyLStrip (s : Str) : Str := s.dropWhile pyIsSpace

/-- Python `str.rstrip()`. -/
def pyRStrip (s : Str) : Str := (s.reverse.dropWhile pyIsSpace).reverse

/-- Python `str.strip()`. -/
def pyStrip (s : Str) : Str := pyRStrip (pyLStrip s)

/-- Python `str.lower()` (ASCII; the sources only lower ASCII data). -/
def pyLower (s : Str) : Str := s.map Char.toLower

/-- Python `sub in s` for single-character-free helpers: split a string on a
single separator character, mirroring `str.split(sep)` for a one-character
separator (`"".split(sep) = [""]`). -/
def pySplitChar (c : Char) : Str → List Str
  | [] => [[]]
  | x :: rest =>
    if x = c then
      [] :: pySplitChar c rest
    else
      match pySplitChar c rest with
      | [] => [[x]]
      | chunk :: more => (x :: chunk) :: more

/-- Python `str.split(sep)` for a multi-character separator (used for
`node_id.split("::")`).  The separator is assumed non-empty, as in the
source. -/
def pySplitSeq (sep : Str) : Str → List Str
  | [] => [[]]
  | x :: rest =>
    if sep.isPrefixOf (x :: rest) ∧ sep ≠ [] then
      [] :: pySplitSeq sep ((x :: rest).drop sep.length)
    else
      match pySplitSeq sep rest with
      | [] => [[x]]
      | chunk :: more => (x :: chunk) :: more
termination_by s => s.length
decreasing_by
  · simp only [List.length_drop]
    have : 1 ≤ sep.length := by
      rcases sep with _ | ⟨a, t⟩
      · simp_all
      · simp [List.length_cons]
    simp [List.length_cons]
    omega
  · simp [List.length_cons]

/-- Python `str.replace(pat, rep)`: replace every non-overlapping occurrence
of `pat`, scanning left to right.  The pattern is assumed non-empty, as at
the single call site (`full_desc.replace("@" + role, "")`). -/
def pyReplace (pat rep : Str) : Str → Str
  | [] => []
  | x :: rest =>
    if pat.isPrefixOf (x :: rest) ∧ pat ≠ [] then
      rep ++ pyReplace pat rep ((x :: rest).drop pat.length)
    else
      x :: pyReplace pat rep rest
termination_by s => s.length
decreasing_by
  · simp only [List.length_drop]
    have : 1 ≤ pat.length := by
      rcases pat with _ | ⟨a, t⟩
      · simp_all
      · simp [List.length_cons]
    simp [List.length_cons]
    omega
  · simp [List.length_cons]

/-- Python `str.startswith`. -/
def pyStartsWith (pre s : Str) : Bool := pre.isPrefixOf s

/-- Python `sub in s` (substring containment). -/
def pyContainsSeq (sub s : Str) : Bool :=
  decide (sub <:+: s)

/-- The last `n` entries of a list (`l[-n:]` for `n ≥ 1`). -/
def lastN (n : ℕ) (l : List α) : List α := l.drop (l.length - n)

/-- Python slice `l[-n:]`, including the `n = 0` edge case, where `l[-0:]`
is `l[0:]`, i.e. the whole list. -/
def pyTail (n : ℕ) (l : List α) : List α :=
  if n = 0 then l else lastN n l

/-- Python slice `l[:-n]`, including the `n = 0` edge case, where `l[:-0]`
is `l[:0]`, i.e. the empty list. -/
def pyDropTail (n : ℕ) (l : List α) : List α :=
  if n = 0 then [] else l.take (l.length - n)

/-!
## Context pruner (`mcp_core/algorithms/context_pruner.py`)

`ContextPruner.prune` reduces a provenance log to a tail plus the
`keep_relevant` candidates most similar to the query.  The embedding
provider is external (HTTP): we model its presence as a boolean, the
cosine-similarity score each candidate receives against the embedded
query as an oracle `score`, and a raised exception inside the `try`
block as a boolean `raisesExc`.  The source also computes a `top_k`
list (lines 72–79) that is immediately recomputed with indices and
never used; that dead code is omitted.
-/

/-- `ContextPruner.prune` (context_pruner.py lines 24–104), over an
arbitrary log entry type.  The source instantiates it at
`AuthorSignature`. -/
def ContextPruner.prune (hasProvider : Bool) (score : α → ℚ) (raisesExc : Bool)
    (log : List α) (keep_tail : ℕ := 10) (keep_relevant : ℕ := 20) : List α :=
  if log.isEmpty then []
  else if log.length ≤ keep_tail + keep_relevant then log
  else
    let tail := pyTail keep_tail log
    let candidates := pyDropTail keep_tail log
    if hasProvider = false then
      pyTail (keep_tail + keep_relevant) log
    else if raisesExc then
      pyTail (keep_tail + keep_relevant) log
    else
      let rankedWithIndex := candidates.enum.insertionSort
        (fun a b => score b.2 ≤ score a.2)
      let topKIndices := ((rankedWithIndex.take keep_relevant).map Prod.fst).insertionSort
        (· ≤ ·)
      let finalCandidates := topKIndices.filterMap (fun i => candidates.get? i)
      finalCandidates ++ tail

/-!
## Weighted voting consensus (`mcp_core/algorithms/voting_consensus.py`)

`compute_decision` aggregates votes into a dict keyed by decision (Python
dicts preserve insertion order), picks the first key of maximal weight
(`max` returns the first maximum), and computes the winning margin from
the weights sorted in descending order.  The per-agent Elo ratings live
in a `defaultdict` mutated elsewhere; they are modelled as an oracle
function `ratings`.
-/

/-- `Vote` dataclass (voting_consensus.py lines 17–23).  The `confidence`
field is documented as 0.0–1.0 but `compute_decision` itself performs no
validation (only `register_vote` does). -/
structure Vote where
  agent_id : Str
  decision : Str
  confidence : ℚ
  domain : Str := ("general").toList
deriving DecidableEq

/-- `ConsensusResult` dataclass (voting_consensus.py lines 26–32). -/
structure ConsensusResult where
  decision : Str
  total_weight : ℚ
  vote_distribution : List (Str × ℚ)
  winning_margin : ℚ
deriving DecidableEq

/-- `weighted_votes[vote.decision] += weight` on an insertion-ordered
dict modelled as an association list. -/
def addWeight (acc : List (Str × ℚ)) (d : Str) (w : ℚ) : List (Str × ℚ) :=
  if acc.any (fun p => decide (p.1 = d)) then
    acc.map (fun p => if p.1 = d then (p.1, p.2 + w) else p)
  else
    acc ++ [(d, w)]

/-- The weight of one vote: `confidence * (rating / initial_rating)` when
`use_elo`, else `confidence` (voting_consensus.py lines 120–127). -/
def voteWeight (use_elo : Bool) (ratings : Str → Str → ℚ) (initial_rating : ℚ)
    (v : Vote) : ℚ :=
  if use_elo then v.confidence * (ratings v.agent_id v.domain / initial_rating)
  else v.confidence

/-- `WeightedVotingConsensus.compute_decision` (voting_consensus.py lines
93–151), with the vote list passed explicitly (the `votes=None` default
substitutes the registered history) and the Elo table as an oracle.
`raise ValueError` is modelled as `Except.error`. -/
def WeightedVotingConsensus.compute_decision (votes : List Vote) (use_elo : Bool)
    (ratings : Str → Str → ℚ) (initial_rating : ℚ := 1500) :
    Except Str ConsensusResult :=
  if votes.isEmpty then .error (("No votes to aggregate").toList)
  else
    let weighted := votes.foldl
      (fun acc v => addWeight acc v.decision (voteWeight use_elo ratings initial_rating v)) []
    match weighted with
    | [] => .error (("All votes had zero weight").toList)
    | w :: ws =>
      let winner := ws.foldl (fun best cur => if cur.2 > best.2 then cur else best) w
      let sortedWeights := ((w :: ws).map Prod.snd).insertionSort (fun a b => b ≤ a)
      let margin : ℚ :=
        match sortedWeights with
        | a :: b :: _ => a - b
        | [a] => a
        | [] => 0
      .ok { decision := winner.1, total_weight := winner.2,
            vote_distribution := w :: ws, winning_margin := margin }

/-!
## Debate speaker selection (`mcp_core/algorithms/debate_engine.py`)

`select_next_speaker` builds `available = set(state.agents)`, discards
agents excluded by the constraints, and returns `list(available)[0]` —
an element of a hash-ordered Python set, whose iteration order is
unspecified (string hashing is randomized per process).  The available
set is therefore modelled as a `Finset` and the selection itself as a
relation: any member of the set may be returned.
-/

/-- `Critique` dataclass (debate_engine.py lines 24–31). -/
structure Critique where
  from_agent : Str
  to_agent : Str
  round_num : ℕ
  message : Str
  severity : Str := ("suggestion").toList
deriving DecidableEq

/-- `DebateState` dataclass (debate_engine.py lines 34–43); fields not read
by `select_next_speaker` are carried for completeness. -/
structure DebateState where
  agents : List Str
  phase : Str := ("blind_draft").toList
  current_round : ℕ := 0
  drafts : List (Str × Str) := []
  critiques : List Critique := []
  topology : Str := ("ring").toList

/-- `SpeakerConstraints` dataclass (debate_engine.py lines 46–51). -/
structure SpeakerConstraints where
  no_consecutive_repeats : Bool := true
  max_turns_per_agent : Option ℤ := none
  previous_speaker : Option Str := none

/-- The set of agents not discarded by `select_next_speaker`
(debate_engine.py lines 297–311).  Note the Python truthiness test
`if constraints.no_consecutive_repeats and constraints.previous_speaker`:
an empty-string previous speaker is falsy and discards nothing. -/
def DebateEngine.availableAgents (state : DebateState) (c : SpeakerConstraints) :
    Finset Str :=
  let avail0 : Finset Str := state.agents.toFinset
  let avail1 : Finset Str :=
    match c.previous_speaker with
    | some p => if c.no_consecutive_repeats ∧ p ≠ [] then avail0.erase p else avail0
    | none => avail0
  match c.max_turns_per_agent with
  | none => avail1
  | some m =>
    state.agents.foldl
      (fun acc a =>
        if m ≤ (state.critiques.countP (fun cr => decide (cr.from_agent = a)) : ℤ) then
          acc.erase a
        else acc)
      avail1

/-- Relational semantics of `DebateEngine.select_next_speaker`
(debate_engine.py lines 279–317): `None` is returned exactly when the
available set is empty, and otherwise `list(available)[0]` is some
unspecified member of the available set. -/
def DebateEngine.selectNextSpeakerRel (state : DebateState) (c : SpeakerConstraints)
    (result : Option Str) : Prop :=
  (DebateEngine.availableAgents state c = ∅ ∧ result = none) ∨
  (∃ a ∈ DebateEngine.availableAgents state c, result = some a)

/-!
## Git role dispatcher (`mcp_core/algorithms/git_role_dispatcher.py`) and
circuit breaker (`mcp_core/telemetry/self_healing.py`)

`dispatch` iterates the PI-sorted role order; for each role it first
consults `should_skip_role` (emitting a SKIPPED report and `continue`-ing
when the breaker is tripped, before ever calling `trigger_check`), then
runs `trigger_check` and, if it fires, `execute` inside a try/except.
The telemetry-derived performance index is an oracle `pi`, assumed
stable across one dispatch; `trigger_check` and `execute` results are
oracles as well (`execute` may raise, modelled by `Except`).
-/

/-- The `GitRole` enum members used by the dispatcher. -/
inductive GitRole
  | project_lifecycle
  | issue_triage
  | feature_scout
  | code_auditor
  | branch_manager
deriving DecidableEq

/-- `ExitReport` (fields referenced by `dispatch`; `files_touched`,
`branch`, `pr_url` and `remaining_work` are carried opaquely by the
roles and unused here). -/
structure ExitReport where
  task_id : Str
  status : Str
  warnings : List Str := []
deriving DecidableEq

/-- `default_order` in `_get_optimized_execution_order`
(git_role_dispatcher.py lines 92–98). -/
def GitRole.defaultOrder : List GitRole :=
  [.project_lifecycle, .issue_triage, .feature_scout, .code_auditor, .branch_manager]

/-- `SelfHealingMonitor.should_skip_role` (self_healing.py lines 138–141):
performance index below 0.3. -/
def SelfHealingMonitor.should_skip_role (pi : GitRole → ℚ) (r : GitRole) : Bool :=
  decide (pi r < 3/10)

/-- `_get_optimized_execution_order` (git_role_dispatcher.py lines 86–112):
stable sort of the default order by performance index, descending. -/
def GitRoleDispatcher.executionOrder (pi : GitRole → ℚ) : List GitRole :=
  ((GitRole.defaultOrder.map (fun r => (r, pi r))).insertionSort
    (fun a b => b.2 ≤ a.2)).map Prod.fst

/-- Result of one dispatch: the reports returned, plus (for the
circuit-breaker property) the list of roles on which `execute` was
actually invoked. -/
structure DispatchOutcome where
  reports : List ExitReport
  executed : List GitRole
deriving DecidableEq

/-- The SKIPPED report emitted by the circuit breaker
(git_role_dispatcher.py lines 56–60). -/
def skippedReport (task_id : Str) : ExitReport :=
  { task_id := task_id, status := ("SKIPPED").toList,
    warnings := [("Skipped due to low performance index").toList] }

/-- One iteration of the `dispatch` role loop (git_role_dispatcher.py
lines 50–82): skip check first (before the trigger!), then trigger,
then `execute` inside try/except. -/
def GitRoleDispatcher.dispatchStep (pi : GitRole → ℚ) (trigger : GitRole → Bool)
    (execRes : GitRole → Except Str ExitReport) (task_id : Str)
    (acc : DispatchOutcome) (r : GitRole) : DispatchOutcome :=
  if SelfHealingMonitor.should_skip_role pi r then
    { acc with reports := acc.reports ++ [skippedReport task_id] }
  else if trigger r then
    match execRes r with
    | .ok rep =>
      { reports := acc.reports ++ [rep], executed := acc.executed ++ [r] }
    | .error e =>
      { reports := acc.reports ++
          [{ task_id := task_id, status := ("FAILED").toList, warnings := [e] }],
        executed := acc.executed ++ [r] }
  else acc

/-- `GitRoleDispatcher.dispatch` (git_role_dispatcher.py lines 33–84).
`record_success` / `record_failure` only touch telemetry and are not
modelled.  An exception from `execute` is caught and converted into a
FAILED report with the error text as warning. -/
def GitRoleDispatcher.dispatch (pi : GitRole → ℚ) (trigger : GitRole → Bool)
    (execRes : GitRole → Except Str ExitReport) (task_id : Str) : DispatchOutcome :=
  (GitRoleDispatcher.executionOrder pi).foldl
    (GitRoleDispatcher.dispatchStep pi trigger execRes task_id)
    { reports := [], executed := [] }

/-!
## Ochiai fault localizer (`mcp_core/algorithms/ochiai_localizer.py`)

`collect_coverage` runs the whole suite once under a coverage collector
(an external subprocess), so `failed_count` and `passed_count` for a
line are 0 or 1.  The collected `CoverageSpectrum` is the input here.
`math.sqrt` forces the score into `ℝ`.
-/

/-- `CoverageSpectrum` dataclass (ochiai_localizer.py lines 30–36); the
per-file line sets are insertion-ordered dicts modelled as association
lists. -/
structure CoverageSpectrum where
  passed_tests : List (Str × List ℕ)
  failed_tests : List (Str × List ℕ)
  total_passed : ℕ
  total_failed : ℕ

/-- `spectrum.passed_tests.get(file_path, set())`. -/
def coverageGet (m : List (Str × List ℕ)) (f : Str) : List ℕ :=
  (m.lookup f).getD []

/-- The per-line body of `OchiaiLocalizer.calculate_suspiciousness`
(ochiai_localizer.py lines 151–177): the score assigned to line `l` of
file `f`.  The surrounding loops only decide which `(file, line)` keys
appear in the result dict (every line covered by any test); the value
computed for each key is exactly this expression. -/
noncomputable def OchiaiLocalizer.suspiciousnessScore (sp : CoverageSpectrum)
    (f : Str) (l : ℕ) : ℝ :=
  let failedLines := coverageGet sp.failed_tests f
  let passedLines := coverageGet sp.passed_tests f
  let failed_count : ℕ := if l ∈ failedLines then 1 else 0
  let passed_count : ℕ := if l ∈ passedLines then 1 else 0
  if failed_count = 0 then 0
  else
    let denominator : ℝ := Real.sqrt ((sp.total_failed : ℝ) * ((failed_count : ℝ) + (passed_count : ℝ)))
    if denominator = 0 then 0 else (failed_count : ℝ) / denominator

/-- `OchiaiLocalizer.run_full_sbfl_analysis` (ochiai_localizer.py lines
241–275) after coverage collection: the collected spectrum is the
argument, and steps 2–4 (suspiciousness ranking plus the float-formatted
debug prompt of `generate_debug_prompt`) are abstracted as `ranking`,
since the gate under verification returns before reaching them. -/
def OchiaiLocalizer.run_full_sbfl_analysis (ranking : CoverageSpectrum → ℕ → Str)
    (spectrum : CoverageSpectrum) (top_k : ℕ := 5) : Str :=
  if spectrum.total_failed = 0 then
    ("All tests passed. No fault localization needed.").toList
  else
    ranking spectrum top_k

/-!
## HippoRAG retriever (`mcp_core/algorithms/hipporag_retriever.py`)

The knowledge graph is a networkx `DiGraph`; Python 3.7+ dicts preserve
insertion order, so nodes and edges are modelled as insertion-ordered
lists.  `_simple_pagerank` works in float arithmetic; it is modelled in
exact `ℚ` (the quantities compared by the claims — a zero score versus
strictly positive ones — are unaffected by rounding).
-/

/-- `ASTNode` as produced by the parser plugins
(`mcp_core/algorithms/parsers/base_parser.py`), restricted to the fields
`_add_ast_node` reads. -/
structure ASTNode where
  name : Str
  node_type : Str
  file_path : Str
  start_line : ℕ
  end_line : ℕ
  content : Str
  calls : List Str := []
  inherits : List Str := []
  renders : List Str := []
  api_calls : List Str := []
  api_route : Option Str := none
deriving DecidableEq

/-- One entry of `self.node_metadata` (hipporag_retriever.py lines
337–355). -/
structure NodeMeta where
  file_path : Str
  node_name : Str
  node_type : Str
  start_line : ℕ
  end_line : ℕ
  content : Str
  api_calls : List Str := []
  api_route : Option Str := none
deriving DecidableEq

/-- The directed knowledge graph: node ids in insertion order and
`((src, dst), edge_type)` entries in insertion order.  Node attributes
(`type`, `file`, `line`) are not modelled: retrieval reads
`node_metadata`, never the graph attributes. -/
structure KGraph where
  nodes : List Str := []
  edges : List ((Str × Str) × Str) := []
deriving DecidableEq

/-- `graph.add_node`: networkx keeps the first insertion position and
merely updates attributes on re-insertion. -/
def KGraph.addNode (g : KGraph) (n : Str) : KGraph :=
  if n ∈ g.nodes then g else { g with nodes := g.nodes ++ [n] }

/-- `graph.add_edge(u, v, type=ty)`: inserts missing endpoints, then
replaces the attribute of an existing `(u, v)` edge or appends a new
one. -/
def KGraph.addEdge (g : KGraph) (u v ty : Str) : KGraph :=
  let g1 := (g.addNode u).addNode v
  if g1.edges.any (fun e => decide (e.1 = (u, v))) then
    { g1 with edges := g1.edges.map (fun e => if e.1 = (u, v) then (e.1, ty) else e) }
  else
    { g1 with edges := g1.edges ++ [((u, v), ty)] }

/-- Successors of `n` (`D[n]`), in edge insertion order. -/
def KGraph.successors (g : KGraph) (n : Str) : List Str :=
  (g.edges.filter (fun e => decide (e.1.1 = n))).map (fun e => e.1.2)

/-- `D.out_degree(n)`. -/
def KGraph.outDegree (g : KGraph) (n : Str) : ℕ :=
  (g.successors n).length

/-- The literal `"::"` used to build node ids. -/
def dcolon : Str := ("::").toList

/-- `node_id = f"{ast_node.file_path}::{ast_node.name}"`. -/
def nodeIdOf (filePath name : Str) : Str := filePath ++ dcolon ++ name

/-- `self.node_metadata[node_id] = {...}` on an insertion-ordered dict. -/
def metaSet (m : List (Str × NodeMeta)) (k : Str) (v : NodeMeta) :
    List (Str × NodeMeta) :=
  if m.any (fun p => decide (p.1 = k)) then
    m.map (fun p => if p.1 = k then (k, v) else p)
  else
    m ++ [(k, v)]

/-- `HippoRAGRetriever._add_ast_node` (hipporag_retriever.py lines
310–370): register the node and its metadata, then add `calls`,
`inherits` and `renders` edges — each edge target is
`f"{ast_node.file_path}::{name}"`, i.e. resolved inside the defining
file. -/
def HippoRAGRetriever.addAstNode (g : KGraph) (m : List (Str × NodeMeta))
    (a : ASTNode) : KGraph × List (Str × NodeMeta) :=
  let nid := nodeIdOf a.file_path a.name
  let g := g.addNode nid
  let m := metaSet m nid
    { file_path := a.file_path, node_name := a.name, node_type := a.node_type,
      start_line := a.start_line, end_line := a.end_line, content := a.content,
      api_calls := a.api_calls, api_route := a.api_route }
  let g := a.calls.foldl
    (fun g c => g.addEdge nid (nodeIdOf a.file_path c) (("calls").toList)) g
  let g := a.inherits.foldl
    (fun g p => g.addEdge nid (nodeIdOf a.file_path p) (("inherits").toList)) g
  let g := a.renders.foldl
    (fun g r => g.addEdge nid (nodeIdOf a.file_path r) (("renders").toList)) g
  (g, m)

/-- `re.sub(r'/\d+', '/:id', route)`: replace each `/` followed by a
maximal digit run. -/
def subNumericSegments : Str → Str
  | [] => []
  | c :: rest =>
    if c = '/' ∧ (rest.takeWhile Char.isDigit) ≠ [] then
      ('/' :: (":id").toList) ++ subNumericSegments (rest.drop (rest.takeWhile Char.isDigit).length)
    else
      c :: subNumericSegments rest
termination_by s => s.length
decreasing_by
  · have h : (rest.takeWhile Char.isDigit).length ≤ rest.length :=
      (List.takeWhile_prefix _).length_le
    simp only [List.length_drop, List.length_cons]
    omega
  · simp [List.length_cons]

/-- Hexadecimal digit as in the UUID pattern `[a-f0-9]`, with
`re.IGNORECASE`. -/
def isHexChar (c : Char) : Bool :=
  c.isDigit || ('a' ≤ c ∧ c ≤ 'f') || ('A' ≤ c ∧ c ≤ 'F')

/-- Does `s` start with `8-4-4-4-12` hex groups separated by dashes
(the 36-character UUID body)? -/
def uuidAtHead (s : Str) : Bool :=
  let seg1 := s.take 8
  let r1 := s.drop 8
  let seg2 := (r1.drop 1).take 4
  let r2 := r1.drop 5
  let seg3 := (r2.drop 1).take 4
  let r3 := r2.drop 5
  let seg4 := (r3.drop 1).take 4
  let r4 := r3.drop 5
  let seg5 := (r4.drop 1).take 12
  decide (s.length ≥ 36) &&
  seg1.all isHexChar && seg1.length == 8 &&
  r1.take 1 == [Char.ofNat 45] &&
  seg2.all isHexChar && seg2.length == 4 &&
  r2.take 1 == [Char.ofNat 45] &&
  seg3.all isHexChar && seg3.length == 4 &&
  r3.take 1 == [Char.ofNat 45] &&
  seg4.all isHexChar && seg4.length == 4 &&
  r4.take 1 == [Char.ofNat 45] &&
  seg5.all isHexChar && seg5.length == 12

/-- `re.sub` of the UUID pattern `/[a-f0-9]{8}-…-[a-f0-9]{12}` with
`/:id`. -/
def subUuidSegments : Str → Str
  | [] => []
  | c :: rest =>
    if c = '/' ∧ uuidAtHead rest then
      ('/' :: (":id").toList) ++ subUuidSegments (rest.drop 36)
    else
      c :: subUuidSegments rest
termination_by s => s.length
decreasing_by
  · simp only [List.length_drop, List.length_cons]
    omega
  · simp [List.length_cons]

/-- Python `str.rstrip('/')`. -/
def rstripSlash (s : Str) : Str :=
  (s.reverse.dropWhile (fun c => c = '/')).reverse

/-- `HippoRAGRetriever._normalize_route` (hipporag_retriever.py lines
517–542): strip trailing `/`, drop the query string, then substitute
numeric and UUID path segments with `/:id`. -/
def HippoRAGRetriever.normalizeRoute (route : Str) : Str :=
  let route := rstripSlash route
  let route := (pySplitChar '?' route).headD []
  subUuidSegments (subNumericSegments route)

/-- `route_handlers[normalized] = node_id` on an insertion-ordered dict:
later assignments to an existing key replace its value. -/
def metaRouteSet (acc : List (Str × Str)) (k v : Str) : List (Str × Str) :=
  if acc.any (fun p => decide (p.1 = k)) then
    acc.map (fun p => if p.1 = k then (k, v) else p)
  else
    acc ++ [(k, v)]

/-- `HippoRAGRetriever._create_api_edges` (hipporag_retriever.py lines
485–515): build the normalized-route → handler index (later entries win
on duplicate routes, as in a dict comprehension), then connect each
client `api_calls` URL that resolves. -/
def HippoRAGRetriever.createApiEdges (g : KGraph) (m : List (Str × NodeMeta)) :
    KGraph :=
  let routeHandlers : List (Str × Str) :=
    m.foldl
      (fun acc p =>
        match p.2.api_route with
        | some r => metaRouteSet acc (HippoRAGRetriever.normalizeRoute r) p.1
        | none => acc) []
  if routeHandlers.isEmpty then g
  else
    m.foldl
      (fun g p =>
        p.2.api_calls.foldl
          (fun g url =>
            match routeHandlers.lookup (HippoRAGRetriever.normalizeRoute url) with
            | some handler => g.addEdge p.1 handler (("calls_api").toList)
            | none => g) g) g

/-- A PageRank vector: scores keyed by node id, in node order. -/
abbrev PRVec := List (Str × ℚ)

/-- `xlast[n]` (0 for a missing key; keys always cover all nodes). -/
def vecGet (v : PRVec) (n : Str) : ℚ := (v.lookup n).getD 0

/-- One power iteration of `_simple_pagerank` (hipporag_retriever.py
lines 585–601).  The source pushes mass along out-edges
(`x[nbr] += alpha * xlast[n] / out_degree(n)`); summing the incoming
contributions per node computes the same totals, since each directed
edge occurs exactly once and `ℚ` addition is commutative. -/
def pagerankStep (g : KGraph) (p : Str → ℚ) (alpha : ℚ) (xlast : PRVec) : PRVec :=
  let danglingSum := xlast.foldl
    (fun acc q => if g.outDegree q.1 = 0 then acc + q.2 else acc) 0
  xlast.map (fun q =>
    let inMass := g.edges.foldl
      (fun acc e =>
        if e.1.2 = q.1 then acc + alpha * vecGet xlast e.1.1 / (g.outDegree e.1.1 : ℚ)
        else acc) 0
    (q.1, inMass + (1 - alpha) * p q.1 + alpha * danglingSum * p q.1))

/-- `err = sum(abs(x[n] - xlast[n]) for n in x)`; both vectors list the
same keys in the same order. -/
def l1Err (x xlast : PRVec) : ℚ :=
  (x.zip xlast).foldl (fun acc q => acc + |q.1.2 - q.2.2|) 0

/-- The iteration loop of `_simple_pagerank`: up to `fuel` steps,
returning early once the L1 change drops below `N * tol`. -/
def pagerankLoop (g : KGraph) (p : Str → ℚ) (alpha tol : ℚ) (n : ℕ) :
    ℕ → PRVec → PRVec
  | 0, x => x
  | fuel + 1, x =>
    let x2 := pagerankStep g p alpha x
    if l1Err x2 x < (n : ℚ) * tol then x2
    else pagerankLoop g p alpha tol n fuel x2

/-- `HippoRAGRetriever._simple_pagerank` (hipporag_retriever.py lines
544–608).  `retrieve_context` always passes a personalization dict; the
`None` case of the source coincides with the `s = 0` branch (uniform). -/
def HippoRAGRetriever.simplePagerank (g : KGraph) (alpha : ℚ)
    (personalization : List (Str × ℚ)) (max_iter : ℕ := 100)
    (tol : ℚ := 1/1000000) : PRVec :=
  if g.nodes.isEmpty then []
  else
    let n := g.nodes.length
    let x0 : PRVec := g.nodes.map (fun nd => (nd, (1 : ℚ) / n))
    let s := personalization.foldl (fun acc q => acc + q.2) 0
    let p : Str → ℚ :=
      if s = 0 then (fun _ => (1 : ℚ) / n)
      else (fun nd => ((personalization.lookup nd).getD 0) / s)
    pagerankLoop g p alpha tol n max_iter x0

/-- `ContextChunk` dataclass (hipporag_retriever.py lines 42–51). -/
structure ContextChunk where
  file_path : Str
  node_name : Str
  node_type : Str
  content : Str
  ppr_score : ℚ
  start_line : ℕ
  end_line : ℕ
deriving DecidableEq

/-- `HippoRAGRetriever._find_seed_nodes` (hipporag_retriever.py lines
440–463): case-insensitive substring match of the query against the
symbol part (`node_id.split("::")[-1]`) of each node id. -/
def HippoRAGRetriever.findSeedNodes (g : KGraph) (query : Str) : List Str :=
  let ql := pyLower query
  g.nodes.filter (fun nid =>
    pyContainsSeq dcolon nid &&
    pyContainsSeq ql (pyLower ((pySplitSeq dcolon nid).getLastD [])))

/-- `HippoRAGRetriever.retrieve_context` (hipporag_retriever.py lines
374–438) on a built graph: find seeds, run personalized PageRank, rank
by score descending (a stable sort over the node-ordered score dict),
take `top_k`, and project through `node_metadata`, skipping ids without
metadata.  `_simple_pagerank` cannot raise (the only divisions are by
out-degrees of nodes known to have successors), so the
`except`-return-empty branch is unreachable. -/
def HippoRAGRetriever.retrieveContext (g : KGraph) (m : List (Str × NodeMeta))
    (query : Str) (top_k : ℕ := 10) (alpha : ℚ := 17/20) : List ContextChunk :=
  let seeds := HippoRAGRetriever.findSeedNodes g query
  if seeds.isEmpty then []
  else
    let personalization := seeds.map (fun nd => (nd, (1 : ℚ) / seeds.length))
    let ppr := HippoRAGRetriever.simplePagerank g alpha personalization 100 (1/1000000)
    let ranked := (ppr.insertionSort (fun a b => b.2 ≤ a.2)).take top_k
    ranked.filterMap (fun q =>
      (m.lookup q.1).map (fun md =>
        { file_path := md.file_path, node_name := md.node_name,
          node_type := md.node_type, content := md.content, ppr_score := q.2,
          start_line := md.start_line, end_line := md.end_line }))

/-!
### The two-file smoke-test project

`a.py` containing `def alpha(): beta()` and `b.py` containing
`def beta(): pass`, as parsed by `PythonParser._extract_function`
(python_parser.py lines 57–87): `alpha` yields `calls=["beta"]`;
`beta` yields `calls=[]`.
-/

/-- The parse of `a.py`: `def alpha(): beta()`. -/
def astAlpha : ASTNode :=
  { name := ("alpha").toList, node_type := ("function").toList,
    file_path := ("a.py").toList, start_line := 1, end_line := 1,
    content := ("def alpha(): beta()").toList, calls := [("beta").toList] }

/-- The parse of `b.py`: `def beta(): pass`. -/
def astBeta : ASTNode :=
  { name := ("beta").toList, node_type := ("function").toList,
    file_path := ("b.py").toList, start_line := 1, end_line := 1,
    content := ("def beta(): pass").toList, calls := [] }

/-- `build_graph_from_ast` over a list of parsed nodes (the per-file
loop of hipporag_retriever.py lines 254–263 followed by
`_create_api_edges`); the file enumeration order of `Path.rglob` is
platform-dependent, so both orders are considered below. -/
def buildFromNodes (ns : List ASTNode) : KGraph × List (Str × NodeMeta) :=
  let gm := ns.foldl (fun gm a => HippoRAGRetriever.addAstNode gm.1 gm.2 a)
    ({ nodes := [], edges := [] }, [])
  (HippoRAGRetriever.createApiEdges gm.1 gm.2, gm.2)

/-!
## Task schema (`mcp_core/swarm_schemas.py`) and orchestrator kernel
(`mcp_core/orchestrator_loop.py`)

`Task` (the source name; called `SwarmTask` here because `Task` is taken
by the Lean prelude) carries the dispatch flags and feedback log.
`AuthorSignature` timestamps and the install-id `signature` field do not
affect any claim and are omitted.  The orchestrator's externals — the
LLM, git, the environment variables, the pruner's embedding provider and
the six `_handle_*` algorithm handlers — are oracle fields of
`OrchestratorEnv`.
-/

/-- `AuthorSignature` (swarm_schemas.py lines 73–81), without timestamp
and install-id signature. -/
structure Sig where
  agent_id : Str
  role : Str
  contributing_model : Option Str := none
  action : Str
  artifact_ref : Option Str := none
deriving DecidableEq

/-- `Task` (swarm_schemas.py lines 84–123).  `task_id` is a UUID drawn
externally; `created_at`/`updated_at` timestamps are omitted. -/
structure SwarmTask where
  task_id : Str := []
  description : Str
  status : Str
  assigned_worker : Option Str := none
  depends_on : List Str := []
  input_files : List Str := []
  output_files : List Str := []
  conflicts_detected : Bool := false
  context_needed : Bool := false
  requires_consensus : Bool := false
  requires_debate : Bool := false
  verification_required : Bool := false
  tests_failing : Bool := false
  git_commit_ready : Bool := false
  git_auto_push : Bool := false
  git_create_pr : Bool := false
  git_branch_name : Option Str := none
  git_base_branch : Str := ("dev").toList
  git_pr_title : Option Str := none
  git_pr_body : Option Str := none
  feature_discovery : Bool := false
  code_audit : Bool := false
  issue_triage_needed : Bool := false
  project_bootstrap : Bool := false
  feedback_log : List Str := []
deriving DecidableEq

/-- The `ProjectProfile` fields `process_task` reads and writes:
`tasks` (an insertion-ordered dict) and `provenance_log`.
(`memory_bank`, `active_context` and `worker_models` only feed prompt
text and model-alias resolution, which the oracles carry.) -/
structure OState where
  tasks : List (Str × SwarmTask) := []
  provenance_log : List Sig := []
deriving DecidableEq

/-- `self.state.tasks[task_id] = task`: replace in place or append. -/
def tasksSet (ts : List (Str × SwarmTask)) (tid : Str) (t : SwarmTask) :
    List (Str × SwarmTask) :=
  if ts.any (fun p => decide (p.1 = tid)) then
    ts.map (fun p => if p.1 = tid then (tid, t) else p)
  else
    ts ++ [(tid, t)]

/-- External effects of one `process_task` tick.  Each `_handle_*`
method may mutate the task (feedback log) and, for the git workflow,
the provenance log, and reports whether it handled the task; they are
modelled as oracle functions returning the mutated state, the mutated
task and the handled flag. -/
structure OrchestratorEnv where
  strict_git : Bool
  agentic_mode : Bool
  git_available : Bool
  has_changes : Bool
  worker_model : Str
  response_status : Str
  handoff : Option (Str × Str)
  pruner_available : Bool
  pruneFn : List Sig → Str → List Sig
  handleContext : OState → SwarmTask → OState × SwarmTask × Bool
  handleConsensus : OState → SwarmTask → OState × SwarmTask × Bool
  handleDebate : OState → SwarmTask → OState × SwarmTask × Bool
  handleVerification : OState → SwarmTask → OState × SwarmTask × Bool
  handleFaultLocalization : OState → SwarmTask → OState × SwarmTask × Bool
  handleGitWorkflow : OState → SwarmTask → OState × SwarmTask × Bool

/-- Observables of one tick: the final in-memory state, whether the
classical-flow LLM was called, whether any algorithm handler ran,
whether `save_state` ran, whether the outbound Markdown sync ran, and
whether an exception escaped `process_task`. -/
structure TickResult where
  state : OState
  llm_called : Bool
  dispatched : Bool
  saved : Bool
  synced : Bool
  raised : Bool

/-- `SwarmOrchestrator.check_loop_state` (orchestrator_loop.py lines
321–323). -/
def Orchestrator.check_loop_state (t : SwarmTask) : Bool :=
  decide (20 < t.feedback_log.length)

/-- The loop-detected feedback note (orchestrator_loop.py line 334). -/
def loopNote : Str := ("🛑 Task aborted due to infinite loop detection").toList

/-- Strict-git feedback notes (orchestrator_loop.py lines 509–510). -/
def strictNote1 : Str :=
  ("❌ Strict Mode: Cannot complete task with uncommitted changes.").toList

/-- Second strict-git feedback note. -/
def strictNote2 : Str :=
  ("💡 Action: Committing changes automatically...").toList

/-- Legacy nudge note (orchestrator_loop.py line 520); the quotes around
`Run git worker` are spelled via `Char.ofNat 39`. -/
def tipNote : Str :=
  ("📝 Tip: You have uncommitted changes. To save, ask: ").toList ++
  [Char.ofNat 39] ++ ("Run git worker").toList ++ [Char.ofNat 39]

/-- `SwarmOrchestrator.process_task` (orchestrator_loop.py lines
325–535).  Faithfulness notes:
* `task` aliases the entry of `state.tasks`, so every branch that saves
  first writes the mutated task back (`tasksSet`);
* the provenance pruning (lines 339–346) runs after the loop guard;
* each algorithm dispatch `if flag and handler(task)` runs its handler
  exactly when the flag is set, and `algorithm_handled` latches;
* the sliding context window, telemetry-alert injection, role keyword
  heuristics and prompt rendering only build the LLM prompt and are
  absorbed into the oracles;
* on a `<handoff_to>` match, line 481 constructs
  `Task(description=..., assigned_worker=..., input_files=...,
  output_files=...)` without the required `status` field, so pydantic
  raises a `ValidationError` that escapes `process_task`: modelled by
  `raised := true` with the in-memory mutations kept and no save;
* on SUCCESS the `task_completed` provenance entry is appended before
  the strict-git check, and the strict-git branch does not remove it. -/
def Orchestrator.processTask (env : OrchestratorEnv) (st : OState) (task_id : Str) :
    TickResult :=
  match st.tasks.lookup task_id with
  | none => ⟨st, false, false, false, false, false⟩
  | some task0 =>
    if task0.status = ("COMPLETED").toList then ⟨st, false, false, false, false, false⟩
    else if Orchestrator.check_loop_state task0 then
      let task := { task0 with
        status := ("FAILED").toList,
        feedback_log := task0.feedback_log ++ [loopNote] }
      ⟨{ st with tasks := tasksSet st.tasks task_id task }, false, false, true, false, false⟩
    else
      let st := if st.provenance_log ≠ [] ∧ env.pruner_available then
          { st with provenance_log := env.pruneFn st.provenance_log task0.description }
        else st
      let r1 := if task0.context_needed then env.handleContext st task0
        else (st, task0, false)
      let r4 := if r1.2.1.requires_consensus then env.handleConsensus r1.1 r1.2.1
        else (r1.1, r1.2.1, false)
      let r5 := if r4.2.1.requires_debate then env.handleDebate r4.1 r4.2.1
        else (r4.1, r4.2.1, false)
      let r6 := if r5.2.1.verification_required then env.handleVerification r5.1 r5.2.1
        else (r5.1, r5.2.1, false)
      let r7 := if r6.2.1.tests_failing then env.handleFaultLocalization r6.1 r6.2.1
        else (r6.1, r6.2.1, false)
      let r8 := if r7.2.1.git_commit_ready || r7.2.1.git_create_pr then
          env.handleGitWorkflow r7.1 r7.2.1
        else (r7.1, r7.2.1, false)
      let st := r8.1
      let task := r8.2.1
      let handled := r1.2.2 || r4.2.2 || r5.2.2 || r6.2.2 || r7.2.2 || r8.2.2
      if handled then
        ⟨{ st with tasks := tasksSet st.tasks task_id task }, false, true, true, false, false⟩
      else if env.agentic_mode then
        ⟨{ st with tasks := tasksSet st.tasks task_id task }, false, false, false, false, false⟩
      else
        let task := { task with
          feedback_log := task.feedback_log ++
            [("Worker execution: ").toList ++ env.response_status] }
        match env.handoff with
        | some _ =>
          ⟨{ st with tasks := tasksSet st.tasks task_id task }, true, false, false, false, true⟩
        | none =>
          if env.response_status = ("SUCCESS").toList then
            let task := { task with status := ("COMPLETED").toList }
            let sig : Sig :=
              { agent_id := ("system").toList, role := ("system").toList,
                contributing_model := some env.worker_model,
                action := ("task_completed").toList, artifact_ref := some task_id }
            let st := { st with provenance_log := st.provenance_log ++ [sig] }
            let task :=
              if env.git_available && env.has_changes then
                if env.strict_git then
                  { task with
                    status := ("PENDING").toList,
                    feedback_log := task.feedback_log ++ [strictNote1, strictNote2],
                    git_commit_ready := true,
                    git_branch_name :=
                      some (task.git_branch_name.getD (("auto/cleanup").toList)) }
                else
                  { task with feedback_log := task.feedback_log ++ [tipNote] }
              else task
            ⟨{ st with tasks := tasksSet st.tasks task_id task }, true, false, true, true, false⟩
          else
            let sig : Sig :=
              { agent_id := ("system").toList, role := ("system").toList,
                contributing_model := some env.worker_model,
                action := ("task_failed").toList,
                artifact_ref := some (task_id ++ (":::").toList ++ env.response_status) }
            let st := { st with provenance_log := st.provenance_log ++ [sig] }
            ⟨{ st with tasks := tasksSet st.tasks task_id task }, true, false, true, true, false⟩

/-!
## Markdown bridge (`mcp_core/sync/markdown_bridge.py`)

`parse_file` is a line-by-line state machine over `(tasks, current_task)`
(`current_section` is recorded but never read, and is not modelled);
`generate_markdown` groups tasks by status and renders a canonical
document.  The possible `ValueError` from the unpacking
`key, val = flag.split("=")` is modelled by returning `none`.
-/

/-- Status literals of the task schema. -/
def stPENDING : Str := ("PENDING").toList

/-- Status literal `IN_PROGRESS`. -/
def stIN_PROGRESS : Str := ("IN_PROGRESS").toList

/-- Status literal `COMPLETED`. -/
def stCOMPLETED : Str := ("COMPLETED").toList

/-- Status literal `FAILED`. -/
def stFAILED : Str := ("FAILED").toList

/-- Python `\w` on the ASCII data the bridge handles. -/
def isWordChar (c : Char) : Bool := c.isAlphanum || c = '_'

/-- The task-line regex `^\s*-\s*\[( |x|/)\]\s+(.*)` of
`MarkdownBridge.parse_file` (markdown_bridge.py line 37), as a
deterministic maximal-munch matcher (each greedy `\s*`/`\s+` is followed
by a literal that whitespace cannot match, and `(.*)` takes the rest of
the line, so no backtracking arises). -/
def taskLineMatch (line : Str) : Option (Char × Str) :=
  match line.dropWhile pyIsSpace with
  | '-' :: r2 =>
    match r2.dropWhile pyIsSpace with
    | '[' :: c :: ']' :: r4 =>
      if c = ' ' ∨ c = 'x' ∨ c = '/' then
        match r4 with
        | s :: _ => if pyIsSpace s then some (c, r4.dropWhile pyIsSpace) else none
        | [] => none
      else none
    | _ => none
  | _ => none

/-- `re.search(r'@(\w+)', full_desc)` (markdown_bridge.py line 48): the
first `@` followed by at least one word character, capturing the maximal
word-character run. -/
def findRoleTag : Str → Option Str
  | [] => none
  | c :: rest =>
    if c = '@' then
      let w := rest.takeWhile isWordChar
      if w ≠ [] then some w else findRoleTag rest
    else findRoleTag rest

/-- The task stub built at markdown_bridge.py lines 61–65:
`Task(description=..., status=..., assigned_worker=...)` with all other
fields at their schema defaults. -/
def mkParsedTask (desc status role : Str) : SwarmTask :=
  { description := desc, status := status, assigned_worker := some role }

/-- `setattr(current_task, key, val)` guarded by `hasattr` (markdown_bridge.py
lines 83–84) for the boolean dispatch-flag fields.  A key naming one of the
schema's non-boolean fields would be overwritten with a `bool` by the
source (silent type corruption); the typed model reports `none` for those
keys.  Unknown keys fail `hasattr` and are ignored. -/
def setFlagAttr (t : SwarmTask) (key : Str) (val : Bool) : Option SwarmTask :=
  if key = ("conflicts_detected").toList then some { t with conflicts_detected := val }
  else if key = ("context_needed").toList then some { t with context_needed := val }
  else if key = ("requires_consensus").toList then some { t with requires_consensus := val }
  else if key = ("requires_debate").toList then some { t with requires_debate := val }
  else if key = ("verification_required").toList then some { t with verification_required := val }
  else if key = ("tests_failing").toList then some { t with tests_failing := val }
  else if key = ("git_commit_ready").toList then some { t with git_commit_ready := val }
  else if key = ("git_auto_push").toList then some { t with git_auto_push := val }
  else if key = ("git_create_pr").toList then some { t with git_create_pr := val }
  else if key = ("feature_discovery").toList then some { t with feature_discovery := val }
  else if key = ("code_audit").toList then some { t with code_audit := val }
  else if key = ("issue_triage_needed").toList then some { t with issue_triage_needed := val }
  else if key = ("project_bootstrap").toList then some { t with project_bootstrap := val }
  else if key ∈ [("task_id").toList, ("description").toList, ("status").toList,
      ("assigned_worker").toList, ("depends_on").toList, ("input_files").toList,
      ("output_files").toList, ("git_branch_name").toList, ("git_base_branch").toList,
      ("git_pr_title").toList, ("git_pr_body").toList, ("feedback_log").toList,
      ("created_at").toList, ("updated_at").toList] then none
  else some t

/-- The `Flags:` loop of `parse_file` (markdown_bridge.py lines 77–84):
`key, val = flag.split("=")` raises `ValueError` unless the split has
exactly two parts. -/
def applyFlags (t : SwarmTask) (body : Str) : Option SwarmTask :=
  (pySplitChar ',' body).foldlM
    (fun t flag =>
      match pySplitChar '=' flag with
      | [k, v] => setFlagAttr t (pyStrip k) (pyLower (pyStrip v) = ("true").toList)
      | _ => none)
    t

/-- One line of `MarkdownBridge.parse_file` (markdown_bridge.py lines
28–84), acting on `(tasks, current_task)`. -/
def bridgeLineStep (st : List SwarmTask × Option SwarmTask) (line : Str) :
    Option (List SwarmTask × Option SwarmTask) :=
  if pyStartsWith (("##").toList) (pyStrip line) then some st
  else
    match taskLineMatch line with
    | some (c, fullDesc) =>
      let tasks := st.1 ++ st.2.toList
      let roleDesc :=
        match findRoleTag fullDesc with
        | some r => (r, pyStrip (pyReplace ('@' :: r) [] fullDesc))
        | none => (("engineer").toList, fullDesc)
      let status :=
        if c.toLower = 'x' then stCOMPLETED
        else if c = '/' then stIN_PROGRESS
        else stPENDING
      some (tasks, some (mkParsedTask roleDesc.2 status roleDesc.1))
    | none =>
      match st.2 with
      | some t =>
        if pyStartsWith ((Char.ofNat 32 :: Char.ofNat 32 :: [Char.ofNat 45])) line ∨
            pyStartsWith ([Char.ofNat 9, Char.ofNat 45]) line then
          let meta := pyStrip ((pyStrip line).drop 1)
          if pyStartsWith (("context:").toList) (pyLower meta) then
            some (st.1, some { t with
              input_files := (pySplitChar ',' (pyStrip (meta.drop 8))).map pyStrip })
          else if pyStartsWith (("flags:").toList) (pyLower meta) then
            (applyFlags t (pyStrip (meta.drop 6))).map (fun t2 => (st.1, some t2))
          else some st
        else some st
      | none => some st

/-- `MarkdownBridge.parse_file` (markdown_bridge.py lines 20–90). -/
def MarkdownBridge.parseFile (content : Str) : Option (List SwarmTask) := do
  let st ← (pySplitChar '\n' content).foldlM bridgeLineStep ([], none)
  return st.1 ++ st.2.toList

/-- `", ".join(...)`. -/
def joinCommaSpace (xs : List Str) : Str := List.intercalate ((", ").toList) xs

/-- `_render_task` (markdown_bridge.py lines 108–132).  When there are no
sublines, the rendered block is the task line followed by an empty line
(`line + "\n" + "".join of nothing`). -/
def renderTask (t : SwarmTask) : Str :=
  let mark : Char :=
    if t.status = stCOMPLETED then 'x'
    else if t.status = stIN_PROGRESS then '/'
    else ' '
  let line := ("- [").toList ++ [mark] ++ ("] ").toList ++ t.description ++
    (match t.assigned_worker with
     | some w => if w ≠ [] then (" @").toList ++ w else []
     | none => [])
  let ctxLines :=
    if t.input_files ≠ [] then
      [("  - Context: ").toList ++ joinCommaSpace t.input_files]
    else []
  let flags :=
    (if t.git_commit_ready then [("git_commit_ready=True").toList] else []) ++
    (if t.git_create_pr then [("git_create_pr=True").toList] else [])
  let flagLines :=
    if flags ≠ [] then [("  - Flags: ").toList ++ joinCommaSpace flags] else []
  line ++ '\n' :: List.intercalate ['\n'] (ctxLines ++ flagLines)

/-- `MarkdownBridge.generate_markdown` (markdown_bridge.py lines 92–148):
group by status (COMPLETED, then IN_PROGRESS, everything else to Todo)
and join the output pieces with newlines. -/
def MarkdownBridge.generateMarkdown (tasks : List SwarmTask)
    (header : Str := ("# Project Plan").toList) : Str :=
  let completed := tasks.filter (fun t => decide (t.status = stCOMPLETED))
  let in_progress := tasks.filter
    (fun t => decide (t.status ≠ stCOMPLETED ∧ t.status = stIN_PROGRESS))
  let todo := tasks.filter
    (fun t => decide (t.status ≠ stCOMPLETED ∧ t.status ≠ stIN_PROGRESS))
  let output :=
    [header, []] ++
    [("## Todo").toList] ++ todo.map renderTask ++ [[]] ++
    [("## In Progress").toList] ++ in_progress.map renderTask ++ [[]] ++
    [("## Completed").toList] ++ completed.map renderTask
  List.intercalate ['\n'] output

/-- The projection of a task the round-trip claim compares: description,
status, assigned worker, input files, and the two whitelisted flags that
`generate_markdown` re-emits. -/
def SwarmTask.view (t : SwarmTask) :
    Str × Str × Option Str × List Str × Bool × Bool :=
  (t.description, t.status, t.assigned_worker, t.input_files,
   t.git_commit_ready, t.git_create_pr)

/-- The task `parse_file` reconstructs from the block `generate_markdown`
renders for a clean task: the stub of markdown_bridge.py lines 61-65 with
the description, status and worker recovered, and the `Context:` and
`Flags:` metadata re-applied; every field outside the rendered subset
reverts to the schema defaults. -/
def parsedOf (t : SwarmTask) : SwarmTask :=
  { description := t.description, status := t.status,
    assigned_worker := t.assigned_worker, input_files := t.input_files,
    git_commit_ready := t.git_commit_ready, git_create_pr := t.git_create_pr }

/-- A description the Markdown grammar carries faithfully: stripping is
the identity and the text contains no `@` (role-tag syntax) and no
newline. -/
@[reducible] def cleanDesc (d : Str) : Prop :=
  pyLStrip d = d ∧ pyRStrip d = d ∧ '@' ∉ d ∧ '\n' ∉ d

/-- A worker name the `@role` tag carries faithfully: a non-empty run of
word characters. -/
@[reducible] def cleanWorker (w : Str) : Prop :=
  w ≠ [] ∧ ∀ c ∈ w, isWordChar c

/-- An input-file entry the `Context:` line carries faithfully: non-empty,
strip-invariant, and free of the separators `,` and newline. -/
@[reducible] def cleanFile (f : Str) : Prop :=
  f ≠ [] ∧ pyLStrip f = f ∧ pyRStrip f = f ∧ ',' ∉ f ∧ '\n' ∉ f

/-- A task the Markdown grammar can carry faithfully (the claim's
"no free-text Markdown outside the grammar"): a representable status, a
clean description, a present clean worker, and clean input files. -/
@[reducible] def cleanTask (t : SwarmTask) : Prop :=
  (t.status = stPENDING ∨ t.status = stIN_PROGRESS ∨ t.status = stCOMPLETED) ∧
  cleanDesc t.description ∧
  t.assigned_worker ≠ none ∧ cleanWorker (t.assigned_worker.getD []) ∧
  ∀ f ∈ t.input_files, cleanFile f

/-!
# Theorems

General list lemmas first, then per-component helper lemmas, then the
claim theorems with their witnesses and counterexamples.
-/

theorem lastN_of_length_le {l : List α} (h : l.length ≤ n) : lastN n l = l := by
  simp [lastN, Nat.sub_eq_zero_of_le h]

theorem length_lastN {l : List α} (h : n ≤ l.length) : (lastN n l).length = n := by
  simp only [lastN, List.length_drop]
  omega

theorem lastN_lastN {l : List α} (hmn : m ≤ n) (hn : n ≤ l.length) :
    lastN m (lastN n l) = lastN m l := by
  simp only [lastN, List.drop_drop, List.length_drop]
  congr 1
  omega

theorem lastN_append_of_length {a b : List α} (h : b.length = n) :
    lastN n (a ++ b) = b := by
  have h2 : a.length + b.length - n = a.length := by omega
  simp only [lastN, List.length_append, h2]
  exact List.drop_left a b

theorem pyTail_of_pos {l : List α} (h : 1 ≤ n) : pyTail n l = lastN n l := by
  rw [pyTail, if_neg (by omega)]

theorem pyDropTail_append_pyTail (n : ℕ) (l : List α) :
    pyDropTail n l ++ pyTail n l = l := by
  by_cases h : n = 0
  · simp [pyDropTail, pyTail, h]
  · simp [pyDropTail, pyTail, h, lastN, List.take_append_drop]

theorem pyTail_sublist (n : ℕ) (l : List α) : (pyTail n l).Sublist l := by
  by_cases h : n = 0
  · simp [pyTail, h]
  · simp only [pyTail, if_neg h, lastN]
    exact List.drop_sublist _ _

theorem filterMap_get?_sublist_aux {α : Type} :
    ∀ (n : ℕ) (is : List ℕ) (l : List α), is.length ≤ n → is.Pairwise (· < ·) →
      (is.filterMap (fun i => l.get? i)).Sublist l := by
  intro n
  induction n with
  | zero =>
    intro is l hlen _
    have his : is = [] := List.length_eq_zero.mp (by omega)
    subst his
    simp
  | succ n ih =>
    intro is l hlen hp
    match is, hp, hlen with
    | [], _, _ => simp
    | i :: is, hp, hlen =>
      have hmem : ∀ j ∈ is, i < j := (List.pairwise_cons.mp hp).1
      have htail : is.Pairwise (· < ·) := (List.pairwise_cons.mp hp).2
      rw [List.filterMap_cons]
      rcases hl : l.get? i with _ | a
      · exact ih is l (by simp at hlen ⊢; omega) htail
      · have hi : i < l.length := by
          by_contra hcon
          rw [List.get?_eq_none.mpr (by omega)] at hl
          exact Option.noConfusion hl
        have key : is.filterMap (fun j => l.get? j) =
            (is.map (fun j => j - (i + 1))).filterMap
              (fun j => (l.drop (i + 1)).get? j) := by
          rw [List.filterMap_map]
          apply List.filterMap_congr
          intro j hj
          have hij : i < j := hmem j hj
          have hd : (l.drop (i + 1)).get? (j - (i + 1)) = l.get? ((i + 1) + (j - (i + 1))) :=
            List.get?_drop l (i + 1) (j - (i + 1))
          rw [Function.comp_apply, hd]
          congr 1
          omega
        have hp2 : (is.map (fun j => j - (i + 1))).Pairwise (· < ·) := by
          rw [List.pairwise_map]
          apply htail.imp_of_mem
          intro a b ha hb hab
          have h1 := hmem a ha
          have h2 := hmem b hb
          omega
        have hrec := ih (is.map (fun j => j - (i + 1))) (l.drop (i + 1))
          (by simp at hlen ⊢; omega) hp2
        rw [key]
        have hdrop : l.drop i = a :: l.drop (i + 1) := by
          rw [List.drop_eq_get_cons hi]
          have := (List.get?_eq_some.mp hl).2
          rw [this]
        have h1 : (a :: (is.map (fun j => j - (i + 1))).filterMap
            (fun j => (l.drop (i + 1)).get? j)).Sublist (a :: l.drop (i + 1)) :=
          hrec.cons₂ a
        have h2 : (a :: l.drop (i + 1)).Sublist l := by
          rw [← hdrop]
          exact List.drop_sublist i l
        exact h1.trans h2

theorem filterMap_get?_sublist {α : Type} (is : List ℕ) (l : List α)
    (hp : is.Pairwise (· < ·)) :
    (is.filterMap (fun i => l.get? i)).Sublist l :=
  filterMap_get?_sublist_aux is.length is l le_rfl hp

theorem prune_topIdx_pairwise {α : Type} (score : α → ℚ) (candidates : List α)
    (kr : ℕ) :
    (((((candidates.enum.insertionSort (fun a b => score b.2 ≤ score a.2)).take
        kr).map Prod.fst).insertionSort (· ≤ ·)).Pairwise (· < ·)) := by
  have hperm :
      ((candidates.enum.insertionSort
        (fun a b => score b.2 ≤ score a.2)).map Prod.fst).Perm
        (candidates.enum.map Prod.fst) :=
    (List.perm_insertionSort _ _).map _
  have hnodup :
      ((candidates.enum.insertionSort
        (fun a b => score b.2 ≤ score a.2)).map Prod.fst).Nodup := by
    rw [hperm.nodup_iff, List.enum_map_fst]
    exact List.nodup_range _
  have htopNodup :
      (((candidates.enum.insertionSort
        (fun a b => score b.2 ≤ score a.2)).take kr).map Prod.fst).Nodup := by
    rw [List.map_take]
    exact (List.take_sublist _ _).nodup hnodup
  have hsortNodup :
      ((((candidates.enum.insertionSort
        (fun a b => score b.2 ≤ score a.2)).take kr).map
          Prod.fst).insertionSort (· ≤ ·)).Nodup :=
    (List.perm_insertionSort _ _).nodup_iff.mpr htopNodup
  have hsorted :
      ((((candidates.enum.insertionSort
        (fun a b => score b.2 ≤ score a.2)).take kr).map
          Prod.fst).insertionSort (· ≤ ·)).Pairwise (· ≤ ·) :=
    List.sorted_insertionSort _ _
  have hboth := hsorted.and hsortNodup
  apply hboth.imp
  intro a b hab
  omega

/-- Claim C4: for every provenance log, query, `keep_tail ≥ 1` and non-empty
log, the last `keep_tail` entries of `ContextPruner.prune` equal the last
`keep_tail` entries of the input, in order, in every branch (no-prune,
no-provider FIFO fallback, embedding selection, exception fallback).  The
branch taken is determined by `hasProvider`/`raisesExc`/the length test,
and the theorem quantifies over all of them and over every possible
similarity scoring. -/
theorem contextPruner_tail_invariant {α : Type} (hasProvider : Bool) (score : α → ℚ)
    (raisesExc : Bool) (log : List α) (keep_tail keep_relevant : ℕ)
    (hkt : 1 ≤ keep_tail) (hlog : log ≠ []) :
    lastN keep_tail
      (ContextPruner.prune hasProvider score raisesExc log keep_tail keep_relevant) =
      lastN keep_tail log := by
  rw [ContextPruner.prune]
  rw [if_neg (by simpa [List.isEmpty_iff] using hlog)]
  by_cases hlen : log.length ≤ keep_tail + keep_relevant
  · rw [if_pos hlen]
  · rw [if_neg hlen]
    have hfifo : lastN keep_tail (pyTail (keep_tail + keep_relevant) log) =
        lastN keep_tail log := by
      rw [pyTail_of_pos (by omega)]
      exact lastN_lastN (by omega) (by omega)
    by_cases hp : hasProvider = false
    · simp only [if_pos hp]
      exact hfifo
    · simp only [if_neg hp]
      by_cases hexc : raisesExc = true
      · simp only [if_pos hexc]
        exact hfifo
      · simp only [if_neg hexc]
        rw [pyTail_of_pos hkt]
        exact lastN_append_of_length (length_lastN (by omega))

/-- Witness for C4 at a concrete input exercising the embedding branch. -/
theorem contextPruner_tail_invariant_witness :
    1 ≤ 1 ∧ ([1, 2, 3, 4] : List ℕ) ≠ [] ∧
      lastN 1 (ContextPruner.prune true (fun n : ℕ => (n : ℚ)) false [1, 2, 3, 4] 1 1) =
        lastN 1 [1, 2, 3, 4] :=
  ⟨by decide, by decide,
    contextPruner_tail_invariant true (fun n : ℕ => (n : ℚ)) false [1, 2, 3, 4] 1 1
      (by decide) (by decide)⟩

/-- Claim C10, amended: the output of `ContextPruner.prune` is always a
subsequence of the input log, and, provided `keep_tail ≥ 1`, an input
longer than `keep_tail + keep_relevant` is pruned to at most
`keep_tail + keep_relevant` entries.  (For `keep_tail = 0` the Python
slice `log[-0:]` is the whole log, so the embedding branch returns the
entire log and the length bound fails; see the counterexample.) -/
theorem contextPruner_output_shape {α : Type} (hasProvider : Bool) (score : α → ℚ)
    (raisesExc : Bool) (log : List α) (keep_tail keep_relevant : ℕ) :
    ((ContextPruner.prune hasProvider score raisesExc log keep_tail
        keep_relevant).Sublist log) ∧
    (1 ≤ keep_tail → keep_tail + keep_relevant < log.length →
      (ContextPruner.prune hasProvider score raisesExc log keep_tail
        keep_relevant).length ≤ keep_tail + keep_relevant) := by
  rw [ContextPruner.prune]
  by_cases hemp : log.isEmpty
  · simp only [if_pos hemp]
    exact ⟨List.nil_sublist _, fun _ _ => by simp⟩
  · rw [if_neg hemp]
    by_cases hlen : log.length ≤ keep_tail + keep_relevant
    · rw [if_pos hlen]
      exact ⟨List.Sublist.refl _, fun _ h => by omega⟩
    · rw [if_neg hlen]
      have hfifo : ((pyTail (keep_tail + keep_relevant) log).Sublist log) ∧
          (1 ≤ keep_tail → keep_tail + keep_relevant < log.length →
            (pyTail (keep_tail + keep_relevant) log).length ≤
              keep_tail + keep_relevant) := by
        refine ⟨pyTail_sublist _ _, fun hkt h => ?_⟩
        rw [pyTail_of_pos (by omega)]
        simp only [lastN, List.length_drop]
        omega
      by_cases hp : hasProvider = false
      · simp only [if_pos hp]
        exact hfifo
      · simp only [if_neg hp]
        by_cases hexc : raisesExc = true
        · simp only [if_pos hexc]
          exact hfifo
        · simp only [if_neg hexc]
          constructor
          · have hsub1 :
                ((((((pyDropTail keep_tail log).enum.insertionSort
                  (fun a b => score b.2 ≤ score a.2)).take
                    keep_relevant).map Prod.fst).insertionSort
                      (· ≤ ·)).filterMap
                  (fun i => (pyDropTail keep_tail log).get? i)).Sublist
                  (pyDropTail keep_tail log) :=
              filterMap_get?_sublist _ _ (prune_topIdx_pairwise score _ _)
            have := hsub1.append (List.Sublist.refl (pyTail keep_tail log))
            rwa [pyDropTail_append_pyTail] at this
          · intro hkt hlong
            rw [List.length_append]
            have h1 :
                ((((((pyDropTail keep_tail log).enum.insertionSort
                  (fun a b => score b.2 ≤ score a.2)).take
                    keep_relevant).map Prod.fst).insertionSort
                      (· ≤ ·)).filterMap
                  (fun i => (pyDropTail keep_tail log).get? i)).length ≤
                  keep_relevant := by
              calc (_ : List _).length ≤
                  (((((pyDropTail keep_tail log).enum.insertionSort
                    (fun a b => score b.2 ≤ score a.2)).take
                      keep_relevant).map Prod.fst).insertionSort
                        (· ≤ ·)).length :=
                    List.length_filterMap_le _ _
                _ = ((((pyDropTail keep_tail log).enum.insertionSort
                    (fun a b => score b.2 ≤ score a.2)).take
                      keep_relevant).map Prod.fst).length :=
                    (List.perm_insertionSort _ _).length_eq
                _ ≤ keep_relevant := by
                    rw [List.length_map]
                    exact List.length_take_le _ _
            have h2 : (pyTail keep_tail log).length ≤ keep_tail := by
              rw [pyTail_of_pos hkt]
              simp only [lastN, List.length_drop]
              omega
            omega

/-- Witness for C10 (amended) at a concrete input with `keep_tail = 1`. -/
theorem contextPruner_output_shape_witness :
    ((ContextPruner.prune true (fun n : ℕ => (n : ℚ)) false [1, 2, 3, 4] 1 1).Sublist
      [1, 2, 3, 4]) ∧
    (ContextPruner.prune true (fun n : ℕ => (n : ℚ)) false [1, 2, 3, 4] 1 1).length ≤ 2 :=
  ⟨(contextPruner_output_shape true (fun n : ℕ => (n : ℚ)) false [1, 2, 3, 4] 1 1).1,
    (contextPruner_output_shape true (fun n : ℕ => (n : ℚ)) false [1, 2, 3, 4] 1 1).2
      (by decide) (by decide)⟩

/-- Counterexample to C10 as stated: with `keep_tail = 0`,
`keep_relevant = 0` and an available provider, the singleton log `[5]`
is strictly longer than `keep_tail + keep_relevant = 0` yet
`prune` returns it whole (Python `log[-0:]` is the entire list), so the
claimed length bound fails. -/
theorem contextPruner_bound_counterexample :
    ¬ (((ContextPruner.prune true (fun _ : ℕ => 0) false [5] 0 0).Sublist [5]) ∧
      (0 + 0 < ([5] : List ℕ).length →
        (ContextPruner.prune true (fun _ : ℕ => 0) false [5] 0 0).length ≤ 0 + 0)) := by
  intro h
  have := h.2 (by decide)
  revert this
  decide

instance : IsTotal ℚ (fun a b : ℚ => b ≤ a) := ⟨fun a b => le_total b a⟩

instance : IsTrans ℚ (fun a b : ℚ => b ≤ a) := ⟨fun _ _ _ h1 h2 => le_trans h2 h1⟩

theorem addWeight_ne_nil (acc : List (Str × ℚ)) (d : Str) (w : ℚ) :
    addWeight acc d w ≠ [] := by
  rw [addWeight]
  split
  · rename_i h
    intro hc
    rw [List.map_eq_nil] at hc
    subst hc
    simp at h
  · simp

theorem foldl_addWeight_ne_nil (f : Vote → ℚ) :
    ∀ (votes : List Vote) (acc : List (Str × ℚ)), acc ≠ [] →
      votes.foldl (fun acc v => addWeight acc v.decision (f v)) acc ≠ [] := by
  intro votes
  induction votes with
  | nil => intro acc h; simpa using h
  | cons v rest ih =>
    intro acc _
    exact ih _ (addWeight_ne_nil acc v.decision (f v))

theorem addWeight_forall_nonneg {acc : List (Str × ℚ)} {d : Str} {w : ℚ}
    (hacc : ∀ p ∈ acc, 0 ≤ p.2) (hw : 0 ≤ w) :
    ∀ p ∈ addWeight acc d w, 0 ≤ p.2 := by
  intro p hp
  rw [addWeight] at hp
  split at hp
  · obtain ⟨q, hq, hqe⟩ := List.mem_map.mp hp
    by_cases hqd : q.1 = d
    · rw [if_pos hqd] at hqe
      have := hacc q hq
      subst hqe
      simp only
      linarith
    · rw [if_neg hqd] at hqe
      subst hqe
      exact hacc q hq
  · rcases List.mem_append.mp hp with h | h
    · exact hacc p h
    · simp at h
      subst h
      exact hw

theorem foldl_addWeight_forall_nonneg (f : Vote → ℚ) :
    ∀ (votes : List Vote) (acc : List (Str × ℚ)),
      (∀ p ∈ acc, 0 ≤ p.2) → (∀ v ∈ votes, 0 ≤ f v) →
      ∀ p ∈ votes.foldl (fun acc v => addWeight acc v.decision (f v)) acc, 0 ≤ p.2 := by
  intro votes
  induction votes with
  | nil => intro acc hacc _; simpa using hacc
  | cons v rest ih =>
    intro acc hacc hv
    exact ih _
      (addWeight_forall_nonneg hacc (hv v (List.mem_cons_self _ _)))
      (fun u hu => hv u (List.mem_cons_of_mem _ hu))

theorem addWeight_forall_key {acc : List (Str × ℚ)} {d : Str} {w : ℚ}
    (hacc : ∀ p ∈ acc, p.1 = d) :
    ∀ p ∈ addWeight acc d w, p.1 = d := by
  intro p hp
  rw [addWeight] at hp
  split at hp
  · obtain ⟨q, hq, hqe⟩ := List.mem_map.mp hp
    by_cases hqd : q.1 = d
    · rw [if_pos hqd] at hqe
      subst hqe
      exact hqd
    · rw [if_neg hqd] at hqe
      subst hqe
      exact hacc q hq
  · rcases List.mem_append.mp hp with h | h
    · exact hacc p h
    · simp at h
      subst h
      rfl

theorem foldl_addWeight_forall_key (f : Vote → ℚ) (d : Str) :
    ∀ (votes : List Vote) (acc : List (Str × ℚ)),
      (∀ p ∈ acc, p.1 = d) → (∀ v ∈ votes, v.decision = d) →
      ∀ p ∈ votes.foldl (fun acc v => addWeight acc v.decision (f v)) acc, p.1 = d := by
  intro votes
  induction votes with
  | nil => intro acc hacc _; simpa using hacc
  | cons v rest ih =>
    intro acc hacc hv
    have hvd : v.decision = d := hv v (List.mem_cons_self _ _)
    have h2 : ∀ p ∈ addWeight acc v.decision (f v), p.1 = d := by
      rw [hvd]
      exact addWeight_forall_key hacc
    exact ih _ h2 (fun u hu => hv u (List.mem_cons_of_mem _ hu))

theorem foldl_max_mem :
    ∀ (ws : List (Str × ℚ)) (w : Str × ℚ),
      (ws.foldl (fun best cur => if cur.2 > best.2 then cur else best) w) ∈ w :: ws := by
  intro ws
  induction ws with
  | nil => intro w; simp
  | cons c cs ih =>
    intro w
    simp only [List.foldl_cons]
    rcases List.mem_cons.mp (ih (if c.2 > w.2 then c else w)) with h | h
    · rw [h]
      split
      · exact List.mem_cons_of_mem _ (List.mem_cons_self _ _)
      · exact List.mem_cons_self _ _
    · exact List.mem_cons_of_mem _ (List.mem_cons_of_mem _ h)

theorem sorted_desc_maximum {a : ℚ} {rest : List ℚ} {l : List ℚ}
    (hperm : (a :: rest).Perm l)
    (hs : (a :: rest).Pairwise (fun x y : ℚ => y ≤ x)) :
    l.maximum = (a : WithBot ℚ) := by
  rw [List.maximum_eq_coe_iff]
  constructor
  · exact hperm.mem_iff.mp (List.mem_cons_self _ _)
  · intro b hb
    rcases List.mem_cons.mp (hperm.mem_iff.mpr hb) with h | h
    · exact le_of_eq h
    · exact (List.pairwise_cons.mp hs).1 b h

/-- Claim C5, amended: `compute_decision` errors on an empty vote set; for a
non-empty vote set the winning margin equals the top aggregated weight minus
the second aggregated weight when at least two distinct decisions exist
(hence margin ≥ 0 unconditionally in that case) and equals the single
aggregated weight when only one decision exists (hence margin ≥ 0 whenever
every vote carries a nonnegative weight — e.g. confidences in `[0, 1]` with
nonnegative Elo ratings; `compute_decision` itself does not validate the
confidence, see the counterexample); and a unanimous decision `d` wins
regardless of Elo weighting and of the ratings table. -/
theorem votingConsensus_properties (votes : List Vote) (use_elo : Bool)
    (ratings : Str → Str → ℚ) (initial_rating : ℚ) :
    (WeightedVotingConsensus.compute_decision [] use_elo ratings initial_rating =
      .error (("No votes to aggregate").toList)) ∧
    (votes ≠ [] →
      ∃ res, WeightedVotingConsensus.compute_decision votes use_elo ratings
          initial_rating = .ok res ∧
        res.vote_distribution ≠ [] ∧
        (res.vote_distribution.length = 1 →
          res.winning_margin = res.total_weight) ∧
        (2 ≤ res.vote_distribution.length →
          ∃ top second : ℚ,
            (res.vote_distribution.map Prod.snd).maximum = (top : WithBot ℚ) ∧
            ((res.vote_distribution.map Prod.snd).erase top).maximum =
              (second : WithBot ℚ) ∧
            res.winning_margin = top - second ∧ 0 ≤ res.winning_margin) ∧
        ((∀ v ∈ votes, 0 ≤ voteWeight use_elo ratings initial_rating v) →
          0 ≤ res.winning_margin) ∧
        (∀ d, (∀ v ∈ votes, v.decision = d) → res.decision = d)) := by
  refine ⟨rfl, fun hne => ?_⟩
  obtain ⟨v0, vr, rfl⟩ := List.exists_cons_of_ne_nil hne
  have hfoldne :
      (v0 :: vr).foldl
        (fun acc v => addWeight acc v.decision
          (voteWeight use_elo ratings initial_rating v)) [] ≠ [] := by
    simp only [List.foldl_cons]
    exact foldl_addWeight_ne_nil _ vr _ (addWeight_ne_nil _ _ _)
  obtain ⟨w, ws, hw⟩ := List.exists_cons_of_ne_nil hfoldne
  have hcd : WeightedVotingConsensus.compute_decision (v0 :: vr) use_elo ratings
      initial_rating = .ok
        { decision := (ws.foldl
            (fun best cur => if cur.2 > best.2 then cur else best) w).1,
          total_weight := (ws.foldl
            (fun best cur => if cur.2 > best.2 then cur else best) w).2,
          vote_distribution := w :: ws,
          winning_margin :=
            match ((w :: ws).map Prod.snd).insertionSort (fun a b => b ≤ a) with
            | a :: b :: _ => a - b
            | [a] => a
            | [] => 0 } := by
    rw [WeightedVotingConsensus.compute_decision]
    rw [if_neg (by simp)]
    simp only [hw]
  have hwinner :
      (ws.foldl (fun best cur => if cur.2 > best.2 then cur else best) w) ∈
        w :: ws := foldl_max_mem ws w
  have hkeys : ∀ d, (∀ v ∈ v0 :: vr, v.decision = d) →
      ∀ p ∈ w :: ws, p.1 = d := by
    intro d hd p hp
    rw [← hw] at hp
    exact foldl_addWeight_forall_key _ d (v0 :: vr) [] (by simp) hd p hp
  have hvals : (∀ v ∈ v0 :: vr, 0 ≤ voteWeight use_elo ratings initial_rating v) →
      ∀ p ∈ w :: ws, 0 ≤ p.2 := by
    intro hd p hp
    rw [← hw] at hp
    exact foldl_addWeight_forall_nonneg _ (v0 :: vr) [] (by simp) hd p hp
  have hperm : (((w :: ws).map Prod.snd).insertionSort (fun a b => b ≤ a)).Perm
      ((w :: ws).map Prod.snd) := List.perm_insertionSort _ _
  have hsorted : (((w :: ws).map Prod.snd).insertionSort
      (fun a b => b ≤ a)).Pairwise (fun a b : ℚ => b ≤ a) :=
    List.sorted_insertionSort _ _
  refine ⟨_, hcd, by simp, ?_, ?_, ?_, ?_⟩
  · -- single distinct decision: margin is the winner's total weight
    intro hlen
    simp only [List.length_cons] at hlen
    have hws : ws = [] := by
      cases ws with
      | nil => rfl
      | cons a b => simp at hlen
    subst hws
    simp only [List.foldl_nil, List.map_cons, List.map_nil]
    rcases hs : ([w.2].insertionSort (fun a b : ℚ => b ≤ a)) with _ | ⟨a, rest⟩
    · exact absurd (hs ▸ List.perm_insertionSort (fun a b : ℚ => b ≤ a) [w.2])
        (by simp)
    · have hp2 := hs ▸ List.perm_insertionSort (fun a b : ℚ => b ≤ a) [w.2]
      have := List.Perm.length_eq hp2
      cases rest with
      | cons c d => simp at this
      | nil =>
        have : a = w.2 := by
          have := hp2.mem_iff.mp (List.mem_cons_self a [])
          simpa using this
        simp [hs, this]
  · -- at least two distinct decisions: margin = top - second ≥ 0
    intro hlen
    rcases hs : (((w :: ws).map Prod.snd).insertionSort (fun a b => b ≤ a)) with
      _ | ⟨a, _ | ⟨b, rest⟩⟩
    · exact absurd (List.Perm.length_eq (hs ▸ hperm)) (by simp)
    · have := List.Perm.length_eq (hs ▸ hperm)
      simp only [List.length_cons, List.length_nil, List.length_map] at this hlen
      omega
    · have hp2 := hs ▸ hperm
      have hs2 := hs ▸ hsorted
      refine ⟨a, b, sorted_desc_maximum hp2 hs2, ?_, by simp [hs], ?_⟩
      · have herase : ((b :: rest).Perm
            (((w :: ws).map Prod.snd).erase a)) := by
          have := hp2.erase a
          simpa using this
        exact sorted_desc_maximum herase (List.pairwise_cons.mp hs2).2
      · have hba : b ≤ a :=
          (List.pairwise_cons.mp hs2).1 b (List.mem_cons_self _ _)
        simp only [hs]
        linarith
  · -- nonnegative weights give a nonnegative margin
    intro hnn
    rcases hs : (((w :: ws).map Prod.snd).insertionSort (fun a b => b ≤ a)) with
      _ | ⟨a, _ | ⟨b, rest⟩⟩
    · exact absurd (List.Perm.length_eq (hs ▸ hperm)) (by simp)
    · have hp2 := hs ▸ hperm
      have ha : a ∈ (w :: ws).map Prod.snd :=
        hp2.mem_iff.mp (List.mem_cons_self _ _)
      obtain ⟨p, hp, hpa⟩ := List.mem_map.mp ha
      simp only [hs]
      rw [← hpa]
      exact hvals hnn p hp
    · have hs2 := hs ▸ hsorted
      have hba : b ≤ a :=
        (List.pairwise_cons.mp hs2).1 b (List.mem_cons_self _ _)
      simp only [hs]
      linarith
  · -- unanimity
    intro d hd
    exact hkeys d hd _ hwinner

/-- Witness for C5 (amended) on a concrete two-vote set with a unanimous
decision. -/
theorem votingConsensus_properties_witness :
    ∃ res, WeightedVotingConsensus.compute_decision
        [{ agent_id := ("a").toList, decision := ("yes").toList, confidence := 1,
           domain := ("general").toList },
         { agent_id := ("b").toList, decision := ("yes").toList,
           confidence := 1/2, domain := ("general").toList }] false
        (fun _ _ => 1500) 1500 = .ok res ∧ res.decision = ("yes").toList := by
  obtain ⟨res, hok, _, _, _, _, huna⟩ :=
    (votingConsensus_properties
      [{ agent_id := ("a").toList, decision := ("yes").toList, confidence := 1,
         domain := ("general").toList },
       { agent_id := ("b").toList, decision := ("yes").toList,
         confidence := 1/2, domain := ("general").toList }] false
      (fun _ _ => 1500) 1500).2 (by decide)
  exact ⟨res, hok, huna _ (by decide)⟩

/-- Counterexample to C5 as stated: `compute_decision` performs no range
validation on `confidence` (only `register_vote` does), so a singleton
vote set carrying confidence `-1` yields a winning margin of `-1 < 0`. -/
theorem votingConsensus_margin_counterexample :
    ∃ res, WeightedVotingConsensus.compute_decision
        [{ agent_id := ("a").toList, decision := ("d").toList, confidence := -1,
           domain := ("general").toList }] false
        (fun _ _ => 1500) 1500 = .ok res ∧ res.winning_margin < 0 := by
  refine ⟨{ decision := ("d").toList, total_weight := -1,
            vote_distribution := [(("d").toList, -1)], winning_margin := -1 }, ?_, by norm_num⟩
  rfl

/-- Claim C6, amended: `select_next_speaker` returns `None` exactly when the
set of agents not excluded by the `no_consecutive_repeats` and
`max_turns_per_agent` constraints is empty, and otherwise returns some
member of that set — an unspecified one, because the source takes
`list(available)[0]` of a hash-ordered Python set, not the smallest
identifier. -/
theorem selectNextSpeaker_membership (state : DebateState) (c : SpeakerConstraints)
    (result : Option Str) (h : DebateEngine.selectNextSpeakerRel state c result) :
    (result = none ↔ DebateEngine.availableAgents state c = ∅) ∧
    (∀ a, result = some a → a ∈ DebateEngine.availableAgents state c) := by
  rcases h with ⟨hemp, hr⟩ | ⟨a, ha, hr⟩
  · subst hr
    exact ⟨⟨fun _ => hemp, fun _ => rfl⟩, fun a h => by cases h⟩
  · subst hr
    constructor
    · constructor
      · intro h
        cases h
      · intro h
        rw [h] at ha
        cases ha
    · intro b hb
      obtain rfl : a = b := by injection hb
      exact ha

/-- Witness for C6 (amended) on a two-agent state with no exclusions. -/
theorem selectNextSpeaker_membership_witness :
    ((some (("a").toList) : Option Str) = none ↔
      DebateEngine.availableAgents { agents := [("a").toList, ("b").toList] }
        { } = ∅) ∧
    (∀ x, (some (("a").toList) : Option Str) = some x →
      x ∈ DebateEngine.availableAgents { agents := [("a").toList, ("b").toList] }
        { }) :=
  selectNextSpeaker_membership { agents := [("a").toList, ("b").toList] } { }
    (some (("a").toList)) (Or.inr ⟨("a").toList, by decide, rfl⟩)

/-- Counterexample to C6 as stated: on `agents = ["a", "b"]` with the default
constraints, returning `"b"` is a permitted behaviour of
`list(available)[0]` even though `"a"` is also available and
lexicographically smaller, so the function does not return the smallest
identifier. -/
theorem selectNextSpeaker_smallest_counterexample :
    DebateEngine.selectNextSpeakerRel { agents := [("a").toList, ("b").toList] }
      { } (some (("b").toList)) ∧
    (("a").toList) ∈ DebateEngine.availableAgents
      { agents := [("a").toList, ("b").toList] } { } ∧
    List.Lex (· < ·) (("a").toList) (("b").toList) :=
  ⟨Or.inr ⟨("b").toList, by decide, rfl⟩, by decide, by decide⟩


theorem dispatch_foldl_spec (pi : GitRole → ℚ) (trigger : GitRole → Bool)
    (execRes : GitRole → Except Str ExitReport) (task_id : Str) :
    ∀ (order : List GitRole) (acc : DispatchOutcome),
      (order.foldl (GitRoleDispatcher.dispatchStep pi trigger execRes task_id)
          acc).executed =
        acc.executed ++ order.filter
          (fun r => !(SelfHealingMonitor.should_skip_role pi r) && trigger r) ∧
      (order.foldl (GitRoleDispatcher.dispatchStep pi trigger execRes task_id)
          acc).reports.length =
        acc.reports.length +
          (order.filter (fun r => SelfHealingMonitor.should_skip_role pi r)).length +
          (order.filter
            (fun r => !(SelfHealingMonitor.should_skip_role pi r) && trigger r)).length ∧
      ((skippedReport task_id ∈ acc.reports ∨
          ∃ r ∈ order, SelfHealingMonitor.should_skip_role pi r = true) →
        skippedReport task_id ∈
          (order.foldl (GitRoleDispatcher.dispatchStep pi trigger execRes task_id)
            acc).reports) := by
  intro order
  induction order with
  | nil =>
    intro acc
    refine ⟨by simp, by simp, ?_⟩
    rintro (h | ⟨r, hr, _⟩)
    · simpa using h
    · simp at hr
  | cons r rest ih =>
    intro acc
    simp only [List.foldl_cons, List.filter_cons]
    by_cases hskip : SelfHealingMonitor.should_skip_role pi r
    · have hstep : GitRoleDispatcher.dispatchStep pi trigger execRes task_id acc r =
          { acc with reports := acc.reports ++ [skippedReport task_id] } := by
        rw [GitRoleDispatcher.dispatchStep, if_pos hskip]
      obtain ⟨ihA, ihB, ihC⟩ :=
        ih { acc with reports := acc.reports ++ [skippedReport task_id] }
      rw [hstep]
      have hrun : (!(SelfHealingMonitor.should_skip_role pi r) && trigger r) = false := by
        simp [hskip]
      refine ⟨?_, ?_, ?_⟩
      · rw [ihA, hrun]
        simp
      · rw [ihB, hrun, hskip]
        simp only [if_pos rfl, if_true, cond_true]
        simp
        omega
      · intro _
        apply ihC
        left
        simp
    · have hskipF : SelfHealingMonitor.should_skip_role pi r = false := by
        simpa using hskip
      have hmemdrop :
          (∃ q ∈ r :: rest, SelfHealingMonitor.should_skip_role pi q = true) →
          ∃ q ∈ rest, SelfHealingMonitor.should_skip_role pi q = true := by
        rintro ⟨q, hq, hqs⟩
        rcases List.mem_cons.mp hq with rfl | hq2
        · rw [hskipF] at hqs
          cases hqs
        · exact ⟨q, hq2, hqs⟩
      by_cases htrig : trigger r
      · have hrun : (!(SelfHealingMonitor.should_skip_role pi r) && trigger r) = true := by
          simp [hskipF, htrig]
        rcases hex : execRes r with e | rep
        · have hstep : GitRoleDispatcher.dispatchStep pi trigger execRes task_id acc r =
              { reports := acc.reports ++
                  [{ task_id := task_id, status := ("FAILED").toList,
                     warnings := [e] }],
                executed := acc.executed ++ [r] } := by
            rw [GitRoleDispatcher.dispatchStep, if_neg hskip, if_pos htrig, hex]
          obtain ⟨ihA, ihB, ihC⟩ :=
            ih { reports := acc.reports ++
                  [{ task_id := task_id, status := ("FAILED").toList,
                     warnings := [e] }],
                 executed := acc.executed ++ [r] }
          rw [hstep]
          refine ⟨?_, ?_, ?_⟩
          · rw [ihA]
            simp [htrig, hskipF]
          · rw [ihB]
            simp [htrig, hskipF]
            omega
          · rintro (h | h)
            · exact ihC (Or.inl (by simp [h]))
            · exact ihC (Or.inr (hmemdrop h))
        · have hstep : GitRoleDispatcher.dispatchStep pi trigger execRes task_id acc r =
              { reports := acc.reports ++ [rep],
                executed := acc.executed ++ [r] } := by
            rw [GitRoleDispatcher.dispatchStep, if_neg hskip, if_pos htrig, hex]
          obtain ⟨ihA, ihB, ihC⟩ :=
            ih { reports := acc.reports ++ [rep], executed := acc.executed ++ [r] }
          rw [hstep]
          refine ⟨?_, ?_, ?_⟩
          · rw [ihA]
            simp [htrig, hskipF]
          · rw [ihB]
            simp [htrig, hskipF]
            omega
          · rintro (h | h)
            · exact ihC (Or.inl (by simp [h]))
            · exact ihC (Or.inr (hmemdrop h))
      · have hrun : (!(SelfHealingMonitor.should_skip_role pi r) && trigger r) = false := by
          simp [htrig]
        have hstep : GitRoleDispatcher.dispatchStep pi trigger execRes task_id acc r =
            acc := by
          rw [GitRoleDispatcher.dispatchStep, if_neg hskip, if_neg htrig]
        obtain ⟨ihA, ihB, ihC⟩ := ih acc
        rw [hstep]
        refine ⟨?_, ?_, ?_⟩
        · rw [ihA]
          simp [htrig, hskipF]
        · rw [ihB]
          simp [htrig, hskipF]
        · rintro (h | h)
          · exact ihC (Or.inl h)
          · exact ihC (Or.inr (hmemdrop h))

/-- Claim C7, amended: during a single dispatch (with the telemetry
performance-index snapshot held fixed), `execute` is never called on a role
whose performance index is below 0.3; the number of reports is the number
of breaker-skipped roles plus the number of triggered non-skipped roles;
and every role with performance index below 0.3 contributes a SKIPPED
report regardless of its `trigger_check`, because the circuit-breaker
check precedes the trigger check in the loop. -/
theorem gitDispatcher_circuit_breaker (pi : GitRole → ℚ) (trigger : GitRole → Bool)
    (execRes : GitRole → Except Str ExitReport) (task_id : Str) :
    (∀ r ∈ (GitRoleDispatcher.dispatch pi trigger execRes task_id).executed,
      ¬ (pi r < 3/10)) ∧
    ((GitRoleDispatcher.dispatch pi trigger execRes task_id).reports.length =
      ((GitRoleDispatcher.executionOrder pi).filter
        (fun r => SelfHealingMonitor.should_skip_role pi r)).length +
      ((GitRoleDispatcher.executionOrder pi).filter
        (fun r => !(SelfHealingMonitor.should_skip_role pi r) && trigger r)).length) ∧
    (∀ r ∈ GitRoleDispatcher.executionOrder pi, pi r < 3/10 →
      skippedReport task_id ∈
        (GitRoleDispatcher.dispatch pi trigger execRes task_id).reports) := by
  obtain ⟨hA, hB, hC⟩ := dispatch_foldl_spec pi trigger execRes task_id
    (GitRoleDispatcher.executionOrder pi) { reports := [], executed := [] }
  refine ⟨?_, ?_, ?_⟩
  · intro r hr
    rw [GitRoleDispatcher.dispatch, hA] at hr
    simp only [List.nil_append, List.mem_filter, Bool.and_eq_true,
      Bool.not_eq_true'] at hr
    have := hr.2.1
    rw [SelfHealingMonitor.should_skip_role] at this
    simpa using this
  · rw [GitRoleDispatcher.dispatch, hB]
    simp
  · intro r hr hlow
    rw [GitRoleDispatcher.dispatch]
    apply hC
    right
    refine ⟨r, hr, ?_⟩
    rw [SelfHealingMonitor.should_skip_role]
    simpa using hlow

set_option maxRecDepth 8000 in
unseal Rat.add Rat.mul Rat.sub Rat.inv Nat.gcd in
/-- Witness for C7 (amended): with `feature_scout` at performance index
0.2 (< 0.3), a SKIPPED report is emitted. -/
theorem gitDispatcher_circuit_breaker_witness :
    skippedReport (("t1").toList) ∈
      (GitRoleDispatcher.dispatch
        (fun r => if r = GitRole.feature_scout then 1/5 else 1)
        (fun _ => false) (fun _ => .error []) (("t1").toList)).reports :=
  (gitDispatcher_circuit_breaker
    (fun r => if r = GitRole.feature_scout then 1/5 else 1)
    (fun _ => false) (fun _ => .error []) (("t1").toList)).2.2
    GitRole.feature_scout (by decide) (by decide)

set_option maxRecDepth 8000 in
unseal Rat.add Rat.mul Rat.sub Rat.inv Nat.gcd in
/-- Counterexample to C7 as stated: with every `trigger_check` returning
false and `branch_manager` below the 0.3 threshold, the dispatch still
emits one SKIPPED ExitReport — the claim says a role whose trigger
returns false contributes no ExitReport. -/
theorem gitDispatcher_skipped_counterexample :
    (GitRoleDispatcher.dispatch
      (fun r => if r = GitRole.branch_manager then 0 else 1)
      (fun _ => false) (fun _ => .error []) (("t1").toList)).reports =
      [skippedReport (("t1").toList)] := by
  decide

/-- Claim C9: a line covered by no failing test scores 0; a line covered
only by failing tests scores 1 when `total_failed = 1` and no passing test
covers it; and when the collected spectrum has `total_failed = 0`,
`run_full_sbfl_analysis` returns the "no fault localization needed"
message — for every possible ranking computation, i.e. without computing
the ranking. -/
theorem ochiai_edge_cases (sp : CoverageSpectrum) (f : Str) (l : ℕ)
    (ranking : CoverageSpectrum → ℕ → Str) (top_k : ℕ) :
    (l ∉ coverageGet sp.failed_tests f →
      OchiaiLocalizer.suspiciousnessScore sp f l = 0) ∧
    (sp.total_failed = 1 → l ∈ coverageGet sp.failed_tests f →
      l ∉ coverageGet sp.passed_tests f →
      OchiaiLocalizer.suspiciousnessScore sp f l = 1) ∧
    (sp.total_failed = 0 →
      OchiaiLocalizer.run_full_sbfl_analysis ranking sp top_k =
        ("All tests passed. No fault localization needed.").toList) := by
  refine ⟨?_, ?_, ?_⟩
  · intro h
    rw [OchiaiLocalizer.suspiciousnessScore]
    simp [h]
  · intro h1 hin hout
    rw [OchiaiLocalizer.suspiciousnessScore]
    simp only [hin, hout, h1]
    norm_num [Real.sqrt_one]
  · intro h0
    rw [OchiaiLocalizer.run_full_sbfl_analysis, if_pos h0]

/-- Witness for C9 at the spectrum of the spec's Ochiai scenario (failing
run covers lines 1 and 2 of `f.py`, passing run covers 2 and 3), plus a
zero-failure spectrum for the gate. -/
theorem ochiai_edge_cases_witness :
    OchiaiLocalizer.suspiciousnessScore
      { passed_tests := [((("f.py").toList), [2, 3])],
        failed_tests := [((("f.py").toList), [1, 2])],
        total_passed := 1, total_failed := 1 } (("f.py").toList) 3 = 0 ∧
    OchiaiLocalizer.suspiciousnessScore
      { passed_tests := [((("f.py").toList), [2, 3])],
        failed_tests := [((("f.py").toList), [1, 2])],
        total_passed := 1, total_failed := 1 } (("f.py").toList) 1 = 1 ∧
    OchiaiLocalizer.run_full_sbfl_analysis (fun _ _ => [])
      { passed_tests := [((("f.py").toList), [2, 3])], failed_tests := [],
        total_passed := 1, total_failed := 0 } 5 =
      ("All tests passed. No fault localization needed.").toList :=
  ⟨(ochiai_edge_cases _ _ 3 (fun _ _ => []) 5).1 (by decide),
    (ochiai_edge_cases _ _ 1 (fun _ _ => []) 5).2.1 rfl (by decide) (by decide),
    (ochiai_edge_cases _ (("f.py").toList) 0 (fun _ _ => []) 5).2.2 rfl⟩

theorem lookup_tasksSet_self (ts : List (Str × SwarmTask)) (tid : Str) (t : SwarmTask) :
    (tasksSet ts tid t).lookup tid = some t := by
  rw [tasksSet]
  by_cases h : ts.any (fun p => decide (p.1 = tid))
  · rw [if_pos h]
    induction ts with
    | nil => simp at h
    | cons p rest ih =>
      simp only [List.map_cons]
      by_cases hp : p.1 = tid
      · rw [if_pos hp, List.lookup_cons]
        simp
      · have h2 : rest.any (fun p => decide (p.1 = tid)) := by
          simp only [List.any_cons, hp, decide_False, Bool.false_or] at h
          exact h
        rw [if_neg hp]
        rcases p with ⟨k, v⟩
        simp only at hp
        rw [List.lookup_cons]
        have hbeq : (tid == k) = false :=
          beq_eq_false_iff_ne.mpr (fun hc => hp hc.symm)
        rw [hbeq]
        exact ih h2
  · rw [if_neg h]
    induction ts with
    | nil => simp [List.lookup_cons]
    | cons p rest ih =>
      have hp : ¬ p.1 = tid := by
        simp only [List.any_cons, Bool.or_eq_true, decide_eq_true_eq] at h
        exact fun hc => h (Or.inl hc)
      have h2 : ¬ rest.any (fun p => decide (p.1 = tid)) := by
        simp only [List.any_cons, Bool.or_eq_true, decide_eq_true_eq] at h
        exact fun hc => h (Or.inr hc)
      rcases p with ⟨k, v⟩
      simp only at hp
      rw [List.cons_append, List.lookup_cons]
      have hbeq : (tid == k) = false :=
        beq_eq_false_iff_ne.mpr (fun hc => hp hc.symm)
      rw [hbeq]
      exact ih h2

/-- Claim C2, amended: for every task present in the state whose status is
not COMPLETED and whose feedback log has more than 20 entries,
`process_task` sets the status to FAILED, appends exactly one feedback
entry (the loop note), saves state, and issues neither an LLM call nor
an algorithm dispatch.  (Invoked on a COMPLETED task, `process_task`
returns at the completed-check before the loop guard; see the
counterexample.) -/
theorem orchestrator_loop_guard (env : OrchestratorEnv) (st : OState) (tid : Str)
    (t : SwarmTask) (hlk : st.tasks.lookup tid = some t)
    (hst : t.status ≠ ("COMPLETED").toList) (hlen : 20 < t.feedback_log.length) :
    (∃ t2, (Orchestrator.processTask env st tid).state.tasks.lookup tid = some t2 ∧
      t2.status = ("FAILED").toList ∧
      t2.feedback_log = t.feedback_log ++ [loopNote]) ∧
    (Orchestrator.processTask env st tid).llm_called = false ∧
    (Orchestrator.processTask env st tid).dispatched = false ∧
    (Orchestrator.processTask env st tid).saved = true ∧
    (Orchestrator.processTask env st tid).raised = false := by
  have hguard : Orchestrator.check_loop_state t = true := by
    rw [Orchestrator.check_loop_state]
    simpa using hlen
  rw [Orchestrator.processTask, hlk]
  simp only [if_neg hst, hguard, if_pos]
  refine ⟨⟨_, lookup_tasksSet_self _ _ _, rfl, rfl⟩, trivial, trivial, trivial, trivial⟩

/-- Witness for C2 (amended) on a one-task state with 21 feedback
entries. -/
theorem orchestrator_loop_guard_witness :
    ∃ t2, (Orchestrator.processTask
      { strict_git := true, agentic_mode := false, git_available := false,
        has_changes := false, worker_model := [], response_status := [],
        handoff := none, pruner_available := false, pruneFn := fun l _ => l,
        handleContext := fun s t => (s, t, false),
        handleConsensus := fun s t => (s, t, false),
        handleDebate := fun s t => (s, t, false),
        handleVerification := fun s t => (s, t, false),
        handleFaultLocalization := fun s t => (s, t, false),
        handleGitWorkflow := fun s t => (s, t, false) }
      { tasks := [((("t1").toList),
          { description := [], status := ("PENDING").toList,
            feedback_log := List.replicate 21 [] })],
        provenance_log := [] }
      (("t1").toList)).state.tasks.lookup (("t1").toList) = some t2 ∧
      t2.status = ("FAILED").toList ∧
      t2.feedback_log = List.replicate 21 [] ++ [loopNote] :=
  (orchestrator_loop_guard _ _ _
    { description := [], status := ("PENDING").toList,
      feedback_log := List.replicate 21 [] }
    (by decide) (by decide) (by decide)).1

/-- Counterexample to C2 as stated: invoked on a COMPLETED task whose
feedback log has 21 entries, `process_task` returns at the
completed-check — the status stays COMPLETED (not FAILED), nothing is
appended, and no save happens. -/
theorem orchestrator_loop_guard_counterexample :
    (Orchestrator.processTask
      { strict_git := true, agentic_mode := false, git_available := false,
        has_changes := false, worker_model := [], response_status := [],
        handoff := none, pruner_available := false, pruneFn := fun l _ => l,
        handleContext := fun s t => (s, t, false),
        handleConsensus := fun s t => (s, t, false),
        handleDebate := fun s t => (s, t, false),
        handleVerification := fun s t => (s, t, false),
        handleFaultLocalization := fun s t => (s, t, false),
        handleGitWorkflow := fun s t => (s, t, false) }
      { tasks := [((("t1").toList),
          { description := [], status := ("COMPLETED").toList,
            feedback_log := List.replicate 21 [] })],
        provenance_log := [] }
      (("t1").toList)).state.tasks.lookup (("t1").toList) =
        some { description := [], status := ("COMPLETED").toList,
               feedback_log := List.replicate 21 [] } ∧
    (Orchestrator.processTask
      { strict_git := true, agentic_mode := false, git_available := false,
        has_changes := false, worker_model := [], response_status := [],
        handoff := none, pruner_available := false, pruneFn := fun l _ => l,
        handleContext := fun s t => (s, t, false),
        handleConsensus := fun s t => (s, t, false),
        handleDebate := fun s t => (s, t, false),
        handleVerification := fun s t => (s, t, false),
        handleFaultLocalization := fun s t => (s, t, false),
        handleGitWorkflow := fun s t => (s, t, false) }
      { tasks := [((("t1").toList),
          { description := [], status := ("COMPLETED").toList,
            feedback_log := List.replicate 21 [] })],
        provenance_log := [] }
      (("t1").toList)).saved = false ∧
    20 < (List.replicate 21 ([] : Str)).length := by
  refine ⟨?_, rfl, by decide⟩
  rfl

/-- Claim C1, amended: when `process_task` reaches the classical flow (task
present, not COMPLETED, feedback log within the guard, no dispatch flag
set, not agentic, no handoff tag) and the LLM response has status SUCCESS
while git reports uncommitted changes and SWARM_STRICT_GIT is enabled, at
the end of the tick the task's status is PENDING and `git_commit_ready`
is true — but a provenance entry with action `task_completed` for the
task HAS been appended (the entry is written before the strict-git check
reverts the status, and is not removed). -/
theorem orchestrator_strict_git (env : OrchestratorEnv) (st : OState) (tid : Str)
    (t : SwarmTask) (hlk : st.tasks.lookup tid = some t)
    (hst : t.status ≠ ("COMPLETED").toList)
    (hlen : ¬ 20 < t.feedback_log.length)
    (hf1 : t.context_needed = false) (hf2 : t.requires_consensus = false)
    (hf3 : t.requires_debate = false) (hf4 : t.verification_required = false)
    (hf5 : t.tests_failing = false) (hf6 : t.git_commit_ready = false)
    (hf7 : t.git_create_pr = false)
    (hagentic : env.agentic_mode = false) (hhandoff : env.handoff = none)
    (hsuccess : env.response_status = ("SUCCESS").toList)
    (hgit : env.git_available = true) (hchanges : env.has_changes = true)
    (hstrict : env.strict_git = true) :
    (∃ t2, (Orchestrator.processTask env st tid).state.tasks.lookup tid = some t2 ∧
      t2.status = ("PENDING").toList ∧ t2.git_commit_ready = true) ∧
    (∃ sig ∈ (Orchestrator.processTask env st tid).state.provenance_log,
      sig.action = ("task_completed").toList ∧ sig.artifact_ref = some tid) ∧
    (Orchestrator.processTask env st tid).llm_called = true ∧
    (Orchestrator.processTask env st tid).saved = true := by
  have hguard : Orchestrator.check_loop_state t = false := by
    rw [Orchestrator.check_loop_state]
    simpa using hlen
  rw [Orchestrator.processTask, hlk]
  simp only [if_neg hst, hguard, Bool.false_eq_true, if_false, hf1, hf2, hf3, hf4,
    hf5, hf6, hf7, hagentic, hhandoff, hsuccess, hgit, hchanges, hstrict,
    Bool.false_or, Bool.or_self, Bool.and_self, if_true]
  refine ⟨⟨_, lookup_tasksSet_self _ _ _, rfl, rfl⟩,
    ⟨{ agent_id := ("system").toList, role := ("system").toList,
       contributing_model := some env.worker_model,
       action := ("task_completed").toList, artifact_ref := some tid }, ?_, rfl, rfl⟩,
    trivial, trivial⟩
  simp

/-- Witness for C1 (amended) on a concrete one-task state in the strict-git
SUCCESS scenario. -/
theorem orchestrator_strict_git_witness :
    (∃ t2, (Orchestrator.processTask
      { strict_git := true, agentic_mode := false, git_available := true,
        has_changes := true, worker_model := [],
        response_status := ("SUCCESS").toList,
        handoff := none, pruner_available := false, pruneFn := fun l _ => l,
        handleContext := fun s t => (s, t, false),
        handleConsensus := fun s t => (s, t, false),
        handleDebate := fun s t => (s, t, false),
        handleVerification := fun s t => (s, t, false),
        handleFaultLocalization := fun s t => (s, t, false),
        handleGitWorkflow := fun s t => (s, t, false) }
      { tasks := [((("t1").toList),
          { description := [], status := ("PENDING").toList })],
        provenance_log := [] }
      (("t1").toList)).state.tasks.lookup (("t1").toList) = some t2 ∧
      t2.status = ("PENDING").toList ∧ t2.git_commit_ready = true) ∧
    (∃ sig ∈ (Orchestrator.processTask
      { strict_git := true, agentic_mode := false, git_available := true,
        has_changes := true, worker_model := [],
        response_status := ("SUCCESS").toList,
        handoff := none, pruner_available := false, pruneFn := fun l _ => l,
        handleContext := fun s t => (s, t, false),
        handleConsensus := fun s t => (s, t, false),
        handleDebate := fun s t => (s, t, false),
        handleVerification := fun s t => (s, t, false),
        handleFaultLocalization := fun s t => (s, t, false),
        handleGitWorkflow := fun s t => (s, t, false) }
      { tasks := [((("t1").toList),
          { description := [], status := ("PENDING").toList })],
        provenance_log := [] }
      (("t1").toList)).state.provenance_log,
      sig.action = ("task_completed").toList ∧
      sig.artifact_ref = some (("t1").toList)) := by
  have h := orchestrator_strict_git
    { strict_git := true, agentic_mode := false, git_available := true,
      has_changes := true, worker_model := [],
      response_status := ("SUCCESS").toList,
      handoff := none, pruner_available := false, pruneFn := fun l _ => l,
      handleContext := fun s t => (s, t, false),
      handleConsensus := fun s t => (s, t, false),
      handleDebate := fun s t => (s, t, false),
      handleVerification := fun s t => (s, t, false),
      handleFaultLocalization := fun s t => (s, t, false),
      handleGitWorkflow := fun s t => (s, t, false) }
    { tasks := [((("t1").toList),
        { description := [], status := ("PENDING").toList })],
      provenance_log := [] }
    (("t1").toList)
    { description := [], status := ("PENDING").toList }
    (by decide) (by decide) (by decide) rfl rfl rfl rfl rfl rfl rfl rfl rfl
    rfl rfl rfl rfl
  exact ⟨h.1, h.2.1⟩

/-- Counterexample to C1 as stated: in exactly the claimed scenario
(SUCCESS response, uncommitted changes, strict git), the final status is
PENDING with `git_commit_ready = true` — but a provenance entry with
action `task_completed` for the task does exist, contradicting the
claim's third conjunct. -/
theorem orchestrator_strict_git_counterexample :
    ((Orchestrator.processTask
      { strict_git := true, agentic_mode := false, git_available := true,
        has_changes := true, worker_model := [],
        response_status := ("SUCCESS").toList,
        handoff := none, pruner_available := false, pruneFn := fun l _ => l,
        handleContext := fun s t => (s, t, false),
        handleConsensus := fun s t => (s, t, false),
        handleDebate := fun s t => (s, t, false),
        handleVerification := fun s t => (s, t, false),
        handleFaultLocalization := fun s t => (s, t, false),
        handleGitWorkflow := fun s t => (s, t, false) }
      { tasks := [((("t2").toList),
          { description := [], status := ("PENDING").toList })],
        provenance_log := [] }
      (("t2").toList)).state.tasks.lookup (("t2").toList)).map
        (fun t => (t.status, t.git_commit_ready)) =
      some ((("PENDING").toList), true) ∧
    ∃ sig ∈ (Orchestrator.processTask
      { strict_git := true, agentic_mode := false, git_available := true,
        has_changes := true, worker_model := [],
        response_status := ("SUCCESS").toList,
        handoff := none, pruner_available := false, pruneFn := fun l _ => l,
        handleContext := fun s t => (s, t, false),
        handleConsensus := fun s t => (s, t, false),
        handleDebate := fun s t => (s, t, false),
        handleVerification := fun s t => (s, t, false),
        handleFaultLocalization := fun s t => (s, t, false),
        handleGitWorkflow := fun s t => (s, t, false) }
      { tasks := [((("t2").toList),
          { description := [], status := ("PENDING").toList })],
        provenance_log := [] }
      (("t2").toList)).state.provenance_log,
      sig.action = ("task_completed").toList ∧
      sig.artifact_ref = some (("t2").toList) := by
  exact ⟨by decide, by decide⟩

set_option maxRecDepth 40000 in
unseal Rat.add Rat.mul Rat.sub Rat.inv Nat.gcd pySplitSeq in
/-- Claim C3, evaluated at the failing input: on the graph built from
`a.py` (`def alpha(): beta()`) and `b.py` (`def beta(): pass`), in either
file-processing order, `retrieve_context("alpha", 2, 0.85)` returns only
the `a.py::alpha` chunk.  The `calls` edge targets
`f"{ast_node.file_path}::beta"`, i.e. the phantom node `a.py::beta` in the
caller's own file; `b.py::beta` gets no incoming edge and PageRank score
0, so it is ranked below the top-2 cut, and the phantom `a.py::beta` is
dropped for lack of metadata.  The claim expects both `a.py::alpha` and
`b.py::beta` to be returned, with alpha strictly above beta. -/
theorem hipporag_smoke_failing_input_eval :
    ((HippoRAGRetriever.retrieveContext (buildFromNodes [astAlpha, astBeta]).1
        (buildFromNodes [astAlpha, astBeta]).2 (("alpha").toList) 2 (17/20)).map
        (fun c => (c.file_path, c.node_name)) =
      [((("a.py").toList), (("alpha").toList))]) ∧
    ((HippoRAGRetriever.retrieveContext (buildFromNodes [astBeta, astAlpha]).1
        (buildFromNodes [astBeta, astAlpha]).2 (("alpha").toList) 2 (17/20)).map
        (fun c => (c.file_path, c.node_name)) =
      [((("a.py").toList), (("alpha").toList))]) := by
  exact ⟨by decide, by decide⟩

theorem intercalate_nil_c8 (sep : Str) : List.intercalate sep [] = [] := by
  simp [List.intercalate]

theorem intercalate_single_c8 (sep x : Str) : List.intercalate sep [x] = x := by
  simp [List.intercalate, List.intersperse]

theorem intercalate_cons2_c8 (sep x y : Str) (zs : List Str) :
    List.intercalate sep (x :: y :: zs) = x ++ sep ++ List.intercalate sep (y :: zs) := by
  simp [List.intercalate, List.intersperse_cons_cons]

theorem pySplitChar_ne_nil (c : Char) (s : Str) : pySplitChar c s ≠ [] := by
  induction s with
  | nil => simp [pySplitChar]
  | cons x rest ih =>
    simp only [pySplitChar]
    split
    · simp
    · rcases h : pySplitChar c rest with _ | ⟨chunk, more⟩
      · simp
      · simp

theorem pySplitChar_append_sep (c : Char) (a b : Str) :
    pySplitChar c (a ++ c :: b) = pySplitChar c a ++ pySplitChar c b := by
  induction a with
  | nil => simp [pySplitChar]
  | cons x a ih =>
    simp only [List.cons_append, pySplitChar]
    by_cases hx : x = c
    · simp [hx, ih]
    · simp only [if_neg hx, List.append_eq]
      rcases h : pySplitChar c a with _ | ⟨chunk, more⟩
      · exact absurd h (pySplitChar_ne_nil c a)
      · rw [ih, h]
        simp

theorem pySplitChar_of_not_mem (c : Char) (s : Str) (h : c ∉ s) :
    pySplitChar c s = [s] := by
  induction s with
  | nil => simp [pySplitChar]
  | cons x rest ih =>
    simp only [List.mem_cons, not_or] at h
    have hxc : ¬ x = c := fun hh => h.1 hh.symm
    simp [pySplitChar, hxc, ih h.2]

theorem split_intercalate_c8 (c : Char) (ps : List Str) (h : ps ≠ []) :
    pySplitChar c (List.intercalate [c] ps) = ps.flatMap (pySplitChar c) := by
  induction ps with
  | nil => simp at h
  | cons x ps ih =>
    rcases ps with _ | ⟨y, zs⟩
    · simp [intercalate_single_c8, List.flatMap]
    · rw [intercalate_cons2_c8]
      have : x ++ [c] ++ List.intercalate [c] (y :: zs) =
          x ++ c :: List.intercalate [c] (y :: zs) := by simp
      rw [this, pySplitChar_append_sep, ih (by simp)]
      simp [List.flatMap]

theorem dropWhile_head_not_space (x : Char) (s : Str) (hx : pyIsSpace x = false) :
    List.dropWhile pyIsSpace (x :: s) = x :: s := by
  simp [List.dropWhile, hx]

theorem pyLStrip_cons_append (x : Char) (s X : Str) (hx : pyIsSpace x = false) :
    pyLStrip ((x :: s) ++ X) = (x :: s) ++ X := by
  simp [pyLStrip, List.dropWhile, hx]

theorem pyRStrip_cons (x : Char) (s : Str) (hx : pyIsSpace x = false) :
    pyRStrip (x :: s) = x :: pyRStrip s := by
  simp only [pyRStrip, List.reverse_cons, List.dropWhile_append]
  split
  · next hemp =>
    simp only [List.isEmpty_iff] at hemp
    simp [List.dropWhile, hx, hemp]
  · simp

theorem pyRStrip_append_last (A B : Str) (hB : pyRStrip B = B) (hne : B ≠ []) :
    pyRStrip (A ++ B) = A ++ B := by
  simp only [pyRStrip, List.reverse_append, List.dropWhile_append]
  have hrev : List.dropWhile pyIsSpace B.reverse = B.reverse := by
    have := congrArg List.reverse hB
    simpa [pyRStrip] using this
  rw [hrev]
  have : B.reverse.isEmpty = false := by
    simp [List.isEmpty_iff, hne]
  rw [this]
  simp

theorem pyRStrip_append_space (s : Str) (x : Char) (hx : pyIsSpace x = true) :
    pyRStrip (s ++ [x]) = pyRStrip s := by
  simp [pyRStrip, List.dropWhile, hx]

theorem head_not_space_of_lstrip (x : Char) (s : Str) (h : pyLStrip (x :: s) = x :: s) :
    pyIsSpace x = false := by
  by_contra hx
  simp only [Bool.not_eq_false] at hx
  simp only [pyLStrip, List.dropWhile, hx] at h
  have := congrArg List.length h
  have hle : (List.dropWhile pyIsSpace s).length ≤ s.length :=
    List.Sublist.length_le (List.dropWhile_sublist _)
  simp only [List.length_cons] at this
  omega

theorem pyStrip_clean (s : Str) (h1 : pyLStrip s = s) (h2 : pyRStrip s = s) :
    pyStrip s = s := by
  simp [pyStrip, h1, h2]

theorem pyStrip_cons_space (s : Str) : pyStrip (' ' :: s) = pyStrip s := by
  simp [pyStrip, pyLStrip, List.dropWhile, pyIsSpace]

theorem pyLStrip_clean_append (d X : Str) (h : pyLStrip d = d) (hd : d ≠ []) :
    pyLStrip (d ++ X) = d ++ X := by
  rcases d with _ | ⟨x, s⟩
  · simp at hd
  · exact pyLStrip_cons_append x s X (head_not_space_of_lstrip x s h)

theorem pyStrip_append_space (d : Str) (h1 : pyLStrip d = d) (h2 : pyRStrip d = d) :
    pyStrip (d ++ [' ']) = d := by
  rcases d with _ | ⟨x, s⟩
  · rfl
  · have hx := head_not_space_of_lstrip x s h1
    simp only [pyStrip, pyLStrip_cons_append x s [' '] hx]
    rw [pyRStrip_append_space (x :: s) ' ' (by simp [pyIsSpace]), h2]

theorem takeWhile_word_all (w : Str) (h : ∀ c ∈ w, isWordChar c) :
    w.takeWhile isWordChar = w :=
  List.takeWhile_eq_self_iff.mpr h

theorem findRoleTag_append_not_mem (d X : Str) (h : '@' ∉ d) :
    findRoleTag (d ++ X) = findRoleTag X := by
  induction d with
  | nil => simp
  | cons c d ih =>
    simp only [List.mem_cons, not_or] at h
    have : ¬ c = '@' := fun hh => h.1 hh.symm
    simp [findRoleTag, this, ih h.2]

theorem findRoleTag_at (w : Str) (hw : w ≠ []) (hall : ∀ c ∈ w, isWordChar c) :
    findRoleTag ('@' :: w) = some w := by
  simp [findRoleTag, takeWhile_word_all w hall, hw]

theorem isPrefixOf_cons_ne (a b : Char) (as bs : Str) (h : ¬ b = a) :
    List.isPrefixOf (a :: as) (b :: bs) = false := by
  simp [List.isPrefixOf]
  intro hh
  exact absurd hh.symm h

theorem isPrefixOf_self (l : Str) : List.isPrefixOf l l = true := by
  simp [List.isPrefixOf_iff_prefix]

theorem pyReplace_self (w : Str) : pyReplace ('@' :: w) [] ('@' :: w) = [] := by
  rw [pyReplace]
  simp only [isPrefixOf_self, true_and, List.drop_length, ne_eq, reduceCtorEq,
    not_false_eq_true, if_true, ite_true, List.nil_append]
  rw [pyReplace]

theorem pyReplace_clean (w d : Str) (h : '@' ∉ d) :
    pyReplace ('@' :: w) [] (d ++ ' ' :: '@' :: w) = d ++ [' '] := by
  induction d with
  | nil =>
    simp only [List.nil_append]
    rw [pyReplace]
    have hpre : List.isPrefixOf ('@' :: w) (' ' :: '@' :: w) = false :=
      isPrefixOf_cons_ne '@' ' ' w ('@' :: w) (by decide)
    simp only [hpre]
    simp [pyReplace_self w]
  | cons c d ih =>
    simp only [List.mem_cons, not_or] at h
    have hc : ¬ c = '@' := fun hh => h.1 hh.symm
    simp only [List.cons_append]
    rw [pyReplace]
    have hpre : List.isPrefixOf ('@' :: w) (c :: (d ++ ' ' :: '@' :: w)) = false :=
      isPrefixOf_cons_ne '@' c w _ hc
    simp only [hpre]
    simp [ih h.2]

theorem joinCommaSpace_ne_nil (fs : List Str) (h : ∀ f ∈ fs, f ≠ []) (hne : fs ≠ []) :
    joinCommaSpace fs ≠ [] := by
  rcases fs with _ | ⟨f, rest⟩
  · simp at hne
  · rcases rest with _ | ⟨g, zs⟩
    · simpa [joinCommaSpace, intercalate_single_c8] using h f (by simp)
    · simp only [joinCommaSpace, intercalate_cons2_c8]
      have : f ≠ [] := h f (by simp)
      rcases f with _ | ⟨x, s⟩
      · simp at this
      · simp

theorem join_lstrip (fs : List Str) (h : ∀ f ∈ fs, cleanFile f) (hne : fs ≠ []) :
    pyLStrip (joinCommaSpace fs) = joinCommaSpace fs := by
  rcases fs with _ | ⟨f, rest⟩
  · simp at hne
  · have hf := h f (by simp)
    rcases rest with _ | ⟨g, zs⟩
    · simpa [joinCommaSpace, intercalate_single_c8] using hf.2.1
    · simp only [joinCommaSpace, intercalate_cons2_c8]
      have h1 : pyLStrip f = f := hf.2.1
      have h0 : f ≠ [] := hf.1
      rw [List.append_assoc, pyLStrip_clean_append f _ h1 h0]

theorem join_rstrip (fs : List Str) (h : ∀ f ∈ fs, cleanFile f) (hne : fs ≠ []) :
    pyRStrip (joinCommaSpace fs) = joinCommaSpace fs := by
  induction fs with
  | nil => simp at hne
  | cons f rest ih =>
    have hf := h f (by simp)
    rcases rest with _ | ⟨g, zs⟩
    · simpa [joinCommaSpace, intercalate_single_c8] using hf.2.2.1
    · simp only [joinCommaSpace, intercalate_cons2_c8]
      have hJ : pyRStrip (joinCommaSpace (g :: zs)) = joinCommaSpace (g :: zs) :=
        ih (fun x hx => h x (List.mem_cons_of_mem f hx)) (by simp)
      have hJne : joinCommaSpace (g :: zs) ≠ [] :=
        joinCommaSpace_ne_nil (g :: zs)
          (fun x hx => (h x (List.mem_cons_of_mem f hx)).1) (by simp)
      rw [List.append_assoc]
      have hB : pyRStrip ((", ").toList ++ joinCommaSpace (g :: zs)) =
          (", ").toList ++ joinCommaSpace (g :: zs) :=
        pyRStrip_append_last _ _ hJ hJne
      have hBne : (", ").toList ++ joinCommaSpace (g :: zs) ≠ [] := by simp
      exact pyRStrip_append_last f _ hB hBne

theorem split_cons_space_strip (J : Str) :
    (pySplitChar ',' (' ' :: J)).map pyStrip = (pySplitChar ',' J).map pyStrip := by
  simp only [pySplitChar]
  have : ¬ (' ' = ',') := by decide
  simp only [if_neg this]
  rcases hJ : pySplitChar ',' J with _ | ⟨chunk, more⟩
  · exact absurd hJ (pySplitChar_ne_nil ',' J)
  · simp [pyStrip_cons_space]

theorem splitJoin_files (fs : List Str) (h : ∀ f ∈ fs, cleanFile f) (hne : fs ≠ []) :
    (pySplitChar ',' (joinCommaSpace fs)).map pyStrip = fs := by
  induction fs with
  | nil => simp at hne
  | cons f rest ih =>
    have hf := h f (by simp)
    have hstripf : pyStrip f = f := pyStrip_clean f hf.2.1 hf.2.2.1
    rcases rest with _ | ⟨g, zs⟩
    · rw [joinCommaSpace, intercalate_single_c8,
        pySplitChar_of_not_mem ',' f hf.2.2.2.1]
      simp [hstripf]
    · simp only [joinCommaSpace, intercalate_cons2_c8]
      have : f ++ (", ").toList ++ List.intercalate ((", ").toList) (g :: zs) =
          f ++ ',' :: (' ' :: List.intercalate ((", ").toList) (g :: zs)) := by simp
      rw [this, pySplitChar_append_sep, List.map_append,
        pySplitChar_of_not_mem ',' f hf.2.2.2.1]
      rw [split_cons_space_strip]
      have hrest := ih (fun x hx => h x (List.mem_cons_of_mem f hx)) (by simp)
      rw [joinCommaSpace] at hrest
      rw [hrest]
      simp [hstripf]

theorem step_header (st : List SwarmTask × Option SwarmTask) :
    bridgeLineStep st (("# Project Plan").toList) = some st := by
  rcases st with ⟨ts, _ | t⟩ <;> rfl

theorem step_blank (st : List SwarmTask × Option SwarmTask) :
    bridgeLineStep st [] = some st := by
  rcases st with ⟨ts, _ | t⟩ <;> rfl

theorem step_sec_todo (st : List SwarmTask × Option SwarmTask) :
    bridgeLineStep st (("## Todo").toList) = some st := rfl

theorem step_sec_ip (st : List SwarmTask × Option SwarmTask) :
    bridgeLineStep st (("## In Progress").toList) = some st := rfl

theorem step_sec_comp (st : List SwarmTask × Option SwarmTask) :
    bridgeLineStep st (("## Completed").toList) = some st := rfl

theorem step_flags_gcr (ts : List SwarmTask) (u : SwarmTask) :
    bridgeLineStep (ts, some u)
      (("  - Flags: git_commit_ready=True").toList) =
      some (ts, some { u with git_commit_ready := true }) := rfl

theorem step_flags_gpr (ts : List SwarmTask) (u : SwarmTask) :
    bridgeLineStep (ts, some u)
      (("  - Flags: git_create_pr=True").toList) =
      some (ts, some { u with git_create_pr := true }) := rfl

theorem step_flags_both (ts : List SwarmTask) (u : SwarmTask) :
    bridgeLineStep (ts, some u)
      (("  - Flags: git_commit_ready=True, git_create_pr=True").toList) =
      some (ts, some { u with git_commit_ready := true, git_create_pr := true }) := rfl

theorem taskLineMatch_render (m : Char) (X : Str)
    (hm : m = ' ' ∨ m = 'x' ∨ m = '/') :
    taskLineMatch ('-' :: ' ' :: '[' :: m :: ']' :: ' ' :: X) =
      some (m, X.dropWhile pyIsSpace) := by
  have h1 : List.dropWhile pyIsSpace ('-' :: ' ' :: '[' :: m :: ']' :: ' ' :: X) =
      '-' :: ' ' :: '[' :: m :: ']' :: ' ' :: X := by
    rw [List.dropWhile_cons]
    simp [pyIsSpace]
  have h2 : List.dropWhile pyIsSpace (' ' :: '[' :: m :: ']' :: ' ' :: X) =
      '[' :: m :: ']' :: ' ' :: X := by
    rw [List.dropWhile_cons, if_pos (by rfl), List.dropWhile_cons]
    simp [pyIsSpace]
  have h3 : List.dropWhile pyIsSpace (' ' :: X) = List.dropWhile pyIsSpace X := by
    rw [List.dropWhile_cons, if_pos (by rfl)]
  simp only [taskLineMatch, h1, h2, h3, hm]
  simp [hm, pyIsSpace]

theorem startsHH_strip_dash (rest : Str) :
    pyStartsWith (("##").toList) (pyStrip ('-' :: rest)) = false := by
  have h1 : pyLStrip ('-' :: rest) = '-' :: rest :=
    dropWhile_head_not_space '-' rest (by decide)
  simp only [pyStrip, h1, pyRStrip_cons '-' rest (by decide)]
  simp only [pyStartsWith]
  exact isPrefixOf_cons_ne '#' '-' _ _ (by decide)

theorem step_taskline (ts : List SwarmTask) (cur : Option SwarmTask) (m : Char)
    (d w : Str) (hm : m = ' ' ∨ m = 'x' ∨ m = '/')
    (hd1 : pyLStrip d = d) (hd2 : pyRStrip d = d) (hd3 : '@' ∉ d)
    (hw1 : w ≠ []) (hw2 : ∀ c ∈ w, isWordChar c) :
    bridgeLineStep (ts, cur)
      ('-' :: ' ' :: '[' :: m :: ']' :: ' ' :: (d ++ ' ' :: '@' :: w)) =
      some (ts ++ cur.toList, some (mkParsedTask d
        (if m.toLower = 'x' then stCOMPLETED
         else if m = '/' then stIN_PROGRESS else stPENDING) w)) := by
  have htlm := taskLineMatch_render m (d ++ ' ' :: '@' :: w) hm
  have hss := startsHH_strip_dash (' ' :: '[' :: m :: ']' :: ' ' :: (d ++ ' ' :: '@' :: w))
  cases d with
  | nil =>
    simp only [List.nil_append] at htlm hss ⊢
    have hfd : List.dropWhile pyIsSpace (' ' :: '@' :: w) = '@' :: w := by
      rw [List.dropWhile_cons, if_pos (by rfl), List.dropWhile_cons]
      simp [pyIsSpace]
    rw [hfd] at htlm
    simp only [bridgeLineStep, hss, htlm, Bool.false_eq_true, if_false,
      findRoleTag_at w hw1 hw2, pyReplace_self w]
    rfl
  | cons c0 d' =>
    have hc0 : pyIsSpace c0 = false := head_not_space_of_lstrip c0 d' hd1
    have hfd : List.dropWhile pyIsSpace ((c0 :: d') ++ ' ' :: '@' :: w) =
        (c0 :: d') ++ ' ' :: '@' :: w := by
      rw [List.cons_append, List.dropWhile_cons]
      simp [hc0]
    rw [hfd] at htlm
    have hrole : findRoleTag ((c0 :: d') ++ ' ' :: '@' :: w) = some w := by
      have : (c0 :: d') ++ ' ' :: '@' :: w = ((c0 :: d') ++ [' ']) ++ '@' :: w := by simp
      rw [this, findRoleTag_append_not_mem _ _ (by
        intro hmem
        rcases List.mem_append.mp hmem with hmm | hmm
        · exact hd3 hmm
        · simp at hmm), findRoleTag_at w hw1 hw2]
    simp only [bridgeLineStep, hss, htlm, Bool.false_eq_true, if_false, hrole,
      pyReplace_clean w (c0 :: d') hd3]
    rw [show (c0 :: d') ++ [' '] = c0 :: (d' ++ [' ']) from rfl] at *
    rw [show pyStrip (c0 :: (d' ++ [' '])) = c0 :: d' from by
      have := pyStrip_append_space (c0 :: d') hd1 hd2
      simpa using this]

theorem taskLineMatch_meta (X : Str) :
    taskLineMatch (' ' :: ' ' :: '-' :: ' ' :: 'C' :: X) = none := by
  have h1 : List.dropWhile pyIsSpace (' ' :: ' ' :: '-' :: ' ' :: 'C' :: X) =
      '-' :: ' ' :: 'C' :: X := by
    rw [List.dropWhile_cons, if_pos (by rfl), List.dropWhile_cons, if_pos (by rfl),
      List.dropWhile_cons]
    simp [pyIsSpace]
  have h2 : List.dropWhile pyIsSpace (' ' :: 'C' :: X) = 'C' :: X := by
    rw [List.dropWhile_cons, if_pos (by rfl), List.dropWhile_cons]
    simp [pyIsSpace]
  simp [taskLineMatch, h1, h2]

theorem step_context (ts : List SwarmTask) (u : SwarmTask) (fs : List Str)
    (h : ∀ f ∈ fs, cleanFile f) (hne : fs ≠ []) :
    bridgeLineStep (ts, some u) (("  - Context: ").toList ++ joinCommaSpace fs) =
      some (ts, some { u with input_files := fs }) := by
  have hB0 : joinCommaSpace fs ≠ [] :=
    joinCommaSpace_ne_nil fs (fun f hf => (h f hf).1) hne
  have hBr : pyRStrip (joinCommaSpace fs) = joinCommaSpace fs := join_rstrip fs h hne
  have hBl : pyLStrip (joinCommaSpace fs) = joinCommaSpace fs := join_lstrip fs h hne
  have hstrip : pyStrip (("  - Context: ").toList ++ joinCommaSpace fs) =
      ("- Context: ").toList ++ joinCommaSpace fs := by
    have hl : pyLStrip (("  - Context: ").toList ++ joinCommaSpace fs) =
        ("- Context: ").toList ++ joinCommaSpace fs := by
      simp only [pyLStrip]
      rw [show ("  - Context: ").toList ++ joinCommaSpace fs =
        ' ' :: ' ' :: '-' :: ((" Context: ").toList ++ joinCommaSpace fs) from rfl]
      rw [List.dropWhile_cons, if_pos (by rfl), List.dropWhile_cons, if_pos (by rfl),
        List.dropWhile_cons]
      simp [pyIsSpace]
    simp only [pyStrip, hl]
    exact pyRStrip_append_last _ _ hBr hB0
  have hss : pyStartsWith (("##").toList) (("- Context: ").toList ++ joinCommaSpace fs)
      = false := isPrefixOf_cons_ne '#' '-' _ _ (by decide)
  have htlm : taskLineMatch (("  - Context: ").toList ++ joinCommaSpace fs) = none := by
    rw [show ("  - Context: ").toList ++ joinCommaSpace fs =
      ' ' :: ' ' :: '-' :: ' ' :: 'C' :: (("ontext: ").toList ++ joinCommaSpace fs) from rfl]
    exact taskLineMatch_meta _
  have hmeta : pyStrip ((("- Context: ").toList ++ joinCommaSpace fs).drop 1) =
      ("Context: ").toList ++ joinCommaSpace fs := by
    rw [show ((("- Context: ").toList ++ joinCommaSpace fs)).drop 1 =
      ' ' :: (("Context: ").toList ++ joinCommaSpace fs) from rfl]
    rw [pyStrip_cons_space]
    simp only [pyStrip]
    have hlc : pyLStrip (("Context: ").toList ++ joinCommaSpace fs) =
        ("Context: ").toList ++ joinCommaSpace fs := by
      simp only [pyLStrip]
      rw [show ("Context: ").toList ++ joinCommaSpace fs =
        'C' :: (("ontext: ").toList ++ joinCommaSpace fs) from rfl]
      rw [List.dropWhile_cons]
      simp [pyIsSpace]
    rw [hlc]
    exact pyRStrip_append_last _ _ hBr hB0
  have hlowpre : pyStartsWith (("context:").toList)
      (pyLower (("Context: ").toList ++ joinCommaSpace fs)) = true := by
    rw [show pyLower (("Context: ").toList ++ joinCommaSpace fs) =
      ("context: ").toList ++ pyLower (joinCommaSpace fs) from by
        simp [pyLower]]
    rfl
  have hdrop8 : pyStrip ((("Context: ").toList ++ joinCommaSpace fs).drop 8) =
      joinCommaSpace fs := by
    rw [show ((("Context: ").toList ++ joinCommaSpace fs)).drop 8 =
      ' ' :: joinCommaSpace fs from rfl]
    rw [pyStrip_cons_space]
    exact pyStrip_clean _ hBl hBr
  simp only [bridgeLineStep, hstrip, hss, Bool.false_eq_true, if_false, htlm]
  rw [show pyStartsWith (Char.ofNat 32 :: Char.ofNat 32 :: [Char.ofNat 45])
    (("  - Context: ").toList ++ joinCommaSpace fs) = true from rfl]
  simp only [hmeta, hlowpre, if_true, true_or, hdrop8, splitJoin_files fs h hne]

theorem markOf_mem (s : Str) :
    (if s = stCOMPLETED then 'x' else if s = stIN_PROGRESS then '/' else ' ') = ' ' ∨
    (if s = stCOMPLETED then 'x' else if s = stIN_PROGRESS then '/' else ' ') = 'x' ∨
    (if s = stCOMPLETED then 'x' else if s = stIN_PROGRESS then '/' else ' ') = '/' := by
  split_ifs <;> simp

theorem statusOfMark_markOf (s : Str)
    (hs : s = stPENDING ∨ s = stIN_PROGRESS ∨ s = stCOMPLETED) :
    (if (if s = stCOMPLETED then 'x' else if s = stIN_PROGRESS then '/' else ' ').toLower = 'x'
      then stCOMPLETED
      else if (if s = stCOMPLETED then 'x' else if s = stIN_PROGRESS then '/' else ' ') = '/'
        then stIN_PROGRESS else stPENDING) = s := by
  rcases hs with rfl | rfl | rfl <;> decide

theorem newline_not_mem_join (fs : List Str) (h : ∀ f ∈ fs, cleanFile f) :
    '\n' ∉ joinCommaSpace fs := by
  induction fs with
  | nil => simp [joinCommaSpace, intercalate_nil_c8]
  | cons f rest ih =>
    have hf := h f (by simp)
    rcases rest with _ | ⟨g, zs⟩
    · simpa [joinCommaSpace, intercalate_single_c8] using hf.2.2.2.2
    · simp only [joinCommaSpace, intercalate_cons2_c8, List.append_assoc,
        List.mem_append, not_or]
      refine ⟨hf.2.2.2.2, ?_, ?_⟩
      · decide
      · exact ih (fun x hx => h x (List.mem_cons_of_mem f hx))

theorem newline_not_mem_taskline (m : Char) (d w : Str)
    (hm : m = ' ' ∨ m = 'x' ∨ m = '/') (hd : '\n' ∉ d) (hw : ∀ c ∈ w, isWordChar c) :
    '\n' ∉ ('-' :: ' ' :: '[' :: m :: ']' :: ' ' :: (d ++ ' ' :: '@' :: w)) := by
  have hnw : '\n' ∉ w := by
    intro hmem
    have := hw '\n' hmem
    simp [isWordChar] at this
  simp only [List.mem_cons, List.mem_append, not_or]
  refine ⟨by decide, by decide, by decide, ?_, by decide, by decide, hd, ?_⟩
  · rcases hm with rfl | rfl | rfl <;> decide
  · exact ⟨by decide, by decide, hnw⟩

theorem newline_not_mem_ctx (fs : List Str) (h : ∀ f ∈ fs, cleanFile f) :
    '\n' ∉ (("  - Context: ").toList ++ joinCommaSpace fs) := by
  simp only [List.mem_append, not_or]
  exact ⟨by decide, newline_not_mem_join fs h⟩

theorem step_block (t : SwarmTask) (w : Str) (hw : t.assigned_worker = some w)
    (hstat : t.status = stPENDING ∨ t.status = stIN_PROGRESS ∨ t.status = stCOMPLETED)
    (hd : cleanDesc t.description) (hwc : cleanWorker w)
    (hf : ∀ f ∈ t.input_files, cleanFile f)
    (ts : List SwarmTask) (cur : Option SwarmTask) (rest : List Str) :
    List.foldlM bridgeLineStep (ts, cur) (pySplitChar '\n' (renderTask t) ++ rest) =
      List.foldlM bridgeLineStep (ts ++ cur.toList, some (parsedOf t)) rest := by
  obtain ⟨hd1, hd2, hd3, hd4⟩ := hd
  obtain ⟨hw1, hw2⟩ := hwc
  simp only [renderTask, hw, ne_eq, hw1, not_false_eq_true, if_true, ite_true]
  rw [show (((("- [").toList ++
        [if t.status = stCOMPLETED then 'x' else if t.status = stIN_PROGRESS then '/' else ' ']) ++
        ("] ").toList) ++ t.description) ++ ((" @").toList ++ w) =
      '-' :: ' ' :: '[' ::
        (if t.status = stCOMPLETED then 'x' else if t.status = stIN_PROGRESS then '/' else ' ') ::
        ']' :: ' ' :: (t.description ++ ' ' :: '@' :: w) from rfl]
  rw [pySplitChar_append_sep '
']
  rw [pySplitChar_of_not_mem '
' _
    (newline_not_mem_taskline _ t.description w (markOf_mem t.status) hd4 hw2)]
  simp only [List.cons_append, List.nil_append]
  rw [List.foldlM_cons]
  rw [step_taskline ts cur _ t.description w (markOf_mem t.status) hd1 hd2 hd3 hw1 hw2]
  simp only [Option.bind_eq_bind, Option.some_bind]
  rw [statusOfMark_markOf t.status hstat]
  by_cases hfs : t.input_files = []
  · cases hb1 : t.git_commit_ready
    · cases hb2 : t.git_create_pr
      · -- no context, no flags
        simp only [hfs, hb1, hb2, Bool.false_eq_true, if_false, ite_false,
          not_true_eq_false, List.append_nil, List.nil_append]
        rw [intercalate_nil_c8]
        rw [show pySplitChar (Char.ofNat 10) ([] : Str) = [[]] from rfl]
        rw [List.singleton_append, List.foldlM_cons, step_blank]
        simp only [Option.bind_eq_bind, Option.some_bind]
        rw [show mkParsedTask t.description t.status w = parsedOf t from by
          simp [mkParsedTask, parsedOf, hfs, hb1, hb2, hw]]
      · -- no context, git_create_pr only
        simp only [hfs, hb1, hb2, Bool.false_eq_true, if_false, ite_false,
          eq_self_iff_true, if_true, ite_true, ne_eq, List.cons_ne_nil,
          not_false_eq_true, not_true_eq_false, not_true,
          List.append_nil, List.nil_append, List.singleton_append]
        rw [intercalate_single_c8]
        rw [show pySplitChar (Char.ofNat 10)
            (("  - Flags: ").toList ++ joinCommaSpace [("git_create_pr=True").toList]) =
          [("  - Flags: ").toList ++ joinCommaSpace [("git_create_pr=True").toList]] from rfl]
        rw [List.singleton_append, List.foldlM_cons]
        rw [show ("  - Flags: ").toList ++ joinCommaSpace [("git_create_pr=True").toList] =
          ("  - Flags: git_create_pr=True").toList from rfl]
        rw [step_flags_gpr]
        simp only [Option.bind_eq_bind, Option.some_bind]
        rw [show { mkParsedTask t.description t.status w with git_create_pr := true } =
            parsedOf t from by
          simp [mkParsedTask, parsedOf, hfs, hb1, hb2, hw]]
    · cases hb2 : t.git_create_pr
      · -- no context, git_commit_ready only
        simp only [hfs, hb1, hb2, Bool.false_eq_true, if_false, ite_false,
          eq_self_iff_true, if_true, ite_true, ne_eq, List.cons_ne_nil,
          not_false_eq_true, not_true_eq_false, not_true,
          List.append_nil, List.nil_append, List.singleton_append]
        rw [intercalate_single_c8]
        rw [show pySplitChar (Char.ofNat 10)
            (("  - Flags: ").toList ++ joinCommaSpace [("git_commit_ready=True").toList]) =
          [("  - Flags: ").toList ++ joinCommaSpace [("git_commit_ready=True").toList]] from rfl]
        rw [List.singleton_append, List.foldlM_cons]
        rw [show ("  - Flags: ").toList ++ joinCommaSpace [("git_commit_ready=True").toList] =
          ("  - Flags: git_commit_ready=True").toList from rfl]
        rw [step_flags_gcr]
        simp only [Option.bind_eq_bind, Option.some_bind]
        rw [show { mkParsedTask t.description t.status w with git_commit_ready := true } =
            parsedOf t from by
          simp [mkParsedTask, parsedOf, hfs, hb1, hb2, hw]]
      · -- no context, both flags
        simp only [hfs, hb1, hb2, Bool.false_eq_true, if_false, ite_false,
          eq_self_iff_true, if_true, ite_true, ne_eq, List.cons_ne_nil,
          not_false_eq_true, not_true_eq_false, not_true,
          List.append_nil, List.nil_append, List.singleton_append]
        rw [intercalate_single_c8]
        rw [show pySplitChar (Char.ofNat 10)
            (("  - Flags: ").toList ++ joinCommaSpace
              [("git_commit_ready=True").toList, ("git_create_pr=True").toList]) =
          [("  - Flags: ").toList ++ joinCommaSpace
              [("git_commit_ready=True").toList, ("git_create_pr=True").toList]] from rfl]
        rw [List.singleton_append, List.foldlM_cons]
        rw [show ("  - Flags: ").toList ++ joinCommaSpace
            [("git_commit_ready=True").toList, ("git_create_pr=True").toList] =
          ("  - Flags: git_commit_ready=True, git_create_pr=True").toList from rfl]
        rw [step_flags_both]
        simp only [Option.bind_eq_bind, Option.some_bind]
        rw [show { mkParsedTask t.description t.status w with
            git_commit_ready := true, git_create_pr := true } = parsedOf t from by
          simp [mkParsedTask, parsedOf, hfs, hb1, hb2, hw]]
  · cases hb1 : t.git_commit_ready
    · cases hb2 : t.git_create_pr
      · -- context, no flags
        simp only [hb1, hb2, Bool.false_eq_true, if_false, ite_false, ne_eq, hfs,
          not_false_eq_true, eq_self_iff_true, not_true_eq_false, not_true,
          if_true, ite_true, List.append_nil, List.nil_append, List.singleton_append]
        rw [intercalate_single_c8]
        rw [pySplitChar_of_not_mem _ _ (newline_not_mem_ctx t.input_files hf)]
        rw [List.singleton_append, List.foldlM_cons]
        rw [step_context _ _ t.input_files hf hfs]
        simp only [Option.bind_eq_bind, Option.some_bind]
        rw [show { mkParsedTask t.description t.status w with input_files := t.input_files } =
            parsedOf t from by
          simp [mkParsedTask, parsedOf, hb1, hb2, hw]]
      · -- context + git_create_pr
        simp only [hb1, hb2, Bool.false_eq_true, if_false, ite_false, ne_eq, hfs,
          eq_self_iff_true, List.cons_ne_nil, not_false_eq_true, not_true_eq_false,
          not_true, if_true, ite_true, List.append_nil, List.nil_append,
          List.singleton_append]
        rw [intercalate_cons2_c8, intercalate_single_c8]
        rw [List.append_assoc, List.singleton_append]
        rw [pySplitChar_append_sep]
        rw [pySplitChar_of_not_mem _ _ (newline_not_mem_ctx t.input_files hf)]
        rw [show pySplitChar (Char.ofNat 10)
            (("  - Flags: ").toList ++ joinCommaSpace [("git_create_pr=True").toList]) =
          [("  - Flags: ").toList ++ joinCommaSpace [("git_create_pr=True").toList]] from rfl]
        rw [List.singleton_append, List.cons_append, List.foldlM_cons]
        rw [step_context _ _ t.input_files hf hfs]
        simp only [Option.bind_eq_bind, Option.some_bind]
        rw [List.singleton_append, List.foldlM_cons]
        rw [show ("  - Flags: ").toList ++ joinCommaSpace [("git_create_pr=True").toList] =
          ("  - Flags: git_create_pr=True").toList from rfl]
        rw [step_flags_gpr]
        simp only [Option.bind_eq_bind, Option.some_bind]
        exact congrArg (fun st => List.foldlM bridgeLineStep st rest)
          (by simp [Prod.ext_iff, mkParsedTask, parsedOf, hb1, hb2, hw])
    · cases hb2 : t.git_create_pr
      · -- context + git_commit_ready
        simp only [hb1, hb2, Bool.false_eq_true, if_false, ite_false, ne_eq, hfs,
          eq_self_iff_true, List.cons_ne_nil, not_false_eq_true, not_true_eq_false,
          not_true, if_true, ite_true, List.append_nil, List.nil_append,
          List.singleton_append]
        rw [intercalate_cons2_c8, intercalate_single_c8]
        rw [List.append_assoc, List.singleton_append]
        rw [pySplitChar_append_sep]
        rw [pySplitChar_of_not_mem _ _ (newline_not_mem_ctx t.input_files hf)]
        rw [show pySplitChar (Char.ofNat 10)
            (("  - Flags: ").toList ++ joinCommaSpace [("git_commit_ready=True").toList]) =
          [("  - Flags: ").toList ++ joinCommaSpace [("git_commit_ready=True").toList]] from rfl]
        rw [List.singleton_append, List.cons_append, List.foldlM_cons]
        rw [step_context _ _ t.input_files hf hfs]
        simp only [Option.bind_eq_bind, Option.some_bind]
        rw [List.singleton_append, List.foldlM_cons]
        rw [show ("  - Flags: ").toList ++ joinCommaSpace [("git_commit_ready=True").toList] =
          ("  - Flags: git_commit_ready=True").toList from rfl]
        rw [step_flags_gcr]
        simp only [Option.bind_eq_bind, Option.some_bind]
        exact congrArg (fun st => List.foldlM bridgeLineStep st rest)
          (by simp [Prod.ext_iff, mkParsedTask, parsedOf, hb1, hb2, hw])
      · -- context + both flags
        simp only [hb1, hb2, Bool.false_eq_true, if_false, ite_false, ne_eq, hfs,
          eq_self_iff_true, List.cons_ne_nil, not_false_eq_true, not_true_eq_false,
          not_true, if_true, ite_true, List.append_nil, List.nil_append,
          List.singleton_append]
        rw [intercalate_cons2_c8, intercalate_single_c8]
        rw [List.append_assoc, List.singleton_append]
        rw [pySplitChar_append_sep]
        rw [pySplitChar_of_not_mem _ _ (newline_not_mem_ctx t.input_files hf)]
        rw [show pySplitChar (Char.ofNat 10)
            (("  - Flags: ").toList ++ joinCommaSpace
              [("git_commit_ready=True").toList, ("git_create_pr=True").toList]) =
          [("  - Flags: ").toList ++ joinCommaSpace
              [("git_commit_ready=True").toList, ("git_create_pr=True").toList]] from rfl]
        rw [List.singleton_append, List.cons_append, List.foldlM_cons]
        rw [step_context _ _ t.input_files hf hfs]
        simp only [Option.bind_eq_bind, Option.some_bind]
        rw [List.singleton_append, List.foldlM_cons]
        rw [show ("  - Flags: ").toList ++ joinCommaSpace
            [("git_commit_ready=True").toList, ("git_create_pr=True").toList] =
          ("  - Flags: git_commit_ready=True, git_create_pr=True").toList from rfl]
        rw [step_flags_both]
        simp only [Option.bind_eq_bind, Option.some_bind]
        exact congrArg (fun st => List.foldlM bridgeLineStep st rest)
          (by simp [Prod.ext_iff, mkParsedTask, parsedOf, hb1, hb2, hw])

theorem group_fold (g : List SwarmTask) (hclean : ∀ t ∈ g, cleanTask t)
    (st : List SwarmTask × Option SwarmTask) (rest : List Str) :
    List.foldlM bridgeLineStep st
      ((g.map renderTask).flatMap (pySplitChar '\n') ++ rest) =
      List.foldlM bridgeLineStep
        (g.foldl (fun st t => (st.1 ++ st.2.toList, some (parsedOf t))) st) rest := by
  induction g generalizing st with
  | nil => simp
  | cons t g ih =>
    obtain ⟨ts, cur⟩ := st
    obtain ⟨hstat, hdesc, hwne, hwc, hfls⟩ := hclean t (by simp)
    obtain ⟨w, hw⟩ := Option.ne_none_iff_exists'.mp hwne
    rw [hw] at hwc
    simp only [Option.getD_some] at hwc
    simp only [List.map_cons, List.flatMap_cons, List.append_assoc]
    rw [step_block t w hw hstat hdesc hwc hfls ts cur _]
    rw [ih (fun x hx => hclean x (List.mem_cons_of_mem t hx))]
    rfl

theorem flush_foldl (g : List SwarmTask) (st : List SwarmTask × Option SwarmTask) :
    (g.foldl (fun st t => (st.1 ++ st.2.toList, some (parsedOf t))) st).1 ++
      (g.foldl (fun st t => (st.1 ++ st.2.toList, some (parsedOf t))) st).2.toList =
      st.1 ++ st.2.toList ++ g.map parsedOf := by
  induction g generalizing st with
  | nil => simp
  | cons t g ih =>
    simp only [List.foldl_cons, List.map_cons]
    rw [ih]
    simp

/-- C8 (corrected): Markdown round-trip.  For every task list in which each
task has a representable status (PENDING, IN_PROGRESS or COMPLETED; FAILED
is not representable in the checkbox grammar, see the counterexample), a
strip-invariant description free of `@` and newlines, a worker name that is
a non-empty word-character run, and non-empty comma-free newline-free
strip-invariant input files, `parse_file (generate_markdown tasks)` returns
exactly the tasks regrouped by section (Todo, then In Progress, then
Completed), each task carrying the same description, status, assigned
worker, input_files and whitelisted flags `git_commit_ready` and
`git_create_pr`, with every other field reset to the schema defaults
(`parsedOf`); the compared projection `SwarmTask.view` is preserved. -/
theorem markdownBridge_roundTrip (tasks : List SwarmTask)
    (h : ∀ t ∈ tasks, cleanTask t) :
    MarkdownBridge.parseFile (MarkdownBridge.generateMarkdown tasks) =
      some (((tasks.filter
            (fun t => decide (t.status ≠ stCOMPLETED ∧ t.status ≠ stIN_PROGRESS))).map parsedOf) ++
          ((tasks.filter
            (fun t => decide (t.status ≠ stCOMPLETED ∧ t.status = stIN_PROGRESS))).map parsedOf) ++
          ((tasks.filter (fun t => decide (t.status = stCOMPLETED))).map parsedOf)) ∧
    ∀ t : SwarmTask, SwarmTask.view (parsedOf t) = SwarmTask.view t := by
  constructor
  · simp only [MarkdownBridge.generateMarkdown, MarkdownBridge.parseFile]
    rw [split_intercalate_c8 (Char.ofNat 10) _ (by simp)]
    simp only [List.flatMap_append, List.flatMap_cons, List.flatMap_nil]
    simp only [show pySplitChar (Char.ofNat 10) (("# Project Plan").toList) =
        [("# Project Plan").toList] from rfl,
      show pySplitChar (Char.ofNat 10) ([] : Str) = [[]] from rfl,
      show pySplitChar (Char.ofNat 10) (("## Todo").toList) = [("## Todo").toList] from rfl,
      show pySplitChar (Char.ofNat 10) (("## In Progress").toList) =
        [("## In Progress").toList] from rfl,
      show pySplitChar (Char.ofNat 10) (("## Completed").toList) =
        [("## Completed").toList] from rfl]
    simp only [List.append_assoc, List.cons_append, List.nil_append,
      List.singleton_append, List.append_nil]
    rw [List.foldlM_cons, step_header]
    simp only [Option.bind_eq_bind, Option.some_bind]
    rw [List.foldlM_cons, step_blank]
    simp only [Option.bind_eq_bind, Option.some_bind]
    rw [List.foldlM_cons, step_sec_todo]
    simp only [Option.bind_eq_bind, Option.some_bind]
    rw [group_fold (tasks.filter
        (fun t => decide (t.status ≠ stCOMPLETED ∧ t.status ≠ stIN_PROGRESS)))
      (fun t ht => h t (List.mem_filter.mp ht).1)]
    rw [List.foldlM_cons, step_blank]
    simp only [Option.bind_eq_bind, Option.some_bind]
    rw [List.foldlM_cons, step_sec_ip]
    simp only [Option.bind_eq_bind, Option.some_bind]
    rw [group_fold (tasks.filter
        (fun t => decide (t.status ≠ stCOMPLETED ∧ t.status = stIN_PROGRESS)))
      (fun t ht => h t (List.mem_filter.mp ht).1)]
    rw [List.foldlM_cons, step_blank]
    simp only [Option.bind_eq_bind, Option.some_bind]
    rw [List.foldlM_cons, step_sec_comp]
    simp only [Option.bind_eq_bind, Option.some_bind]
    have hlast := group_fold
      (tasks.filter (fun t => decide (t.status = stCOMPLETED)))
      (fun t ht => h t (List.mem_filter.mp ht).1) ((tasks.filter
        (fun t => decide (t.status ≠ stCOMPLETED ∧ t.status = stIN_PROGRESS))).foldl
          (fun st t => (st.1 ++ st.2.toList, some (parsedOf t)))
          ((tasks.filter
            (fun t => decide (t.status ≠ stCOMPLETED ∧ t.status ≠ stIN_PROGRESS))).foldl
              (fun st t => (st.1 ++ st.2.toList, some (parsedOf t))) ([], none))) []
    simp only [List.append_nil] at hlast
    rw [hlast]
    simp only [List.foldlM_nil, Option.pure_def, Option.some_bind, Option.some.injEq]
    rw [flush_foldl, flush_foldl, flush_foldl]
    simp
  · intro t
    rfl

/-- C8 witness: the round-trip theorem applied to a concrete two-task
blackboard (one clean PENDING task with context files and a flag, one clean
COMPLETED task). -/
theorem markdownBridge_roundTrip_witness :
    (∀ t ∈ ([{
          description := ("Fix login flow").toList
          status := stPENDING
          assigned_worker := some (("engineer").toList)
          input_files := [("auth.py").toList, ("session.py").toList]
          git_commit_ready := true },
        {
          description := ("Ship release notes").toList
          status := stCOMPLETED
          assigned_worker := some (("qa_bot").toList) }] : List SwarmTask), cleanTask t) ∧
    (MarkdownBridge.parseFile (MarkdownBridge.generateMarkdown
        ([{
          description := ("Fix login flow").toList
          status := stPENDING
          assigned_worker := some (("engineer").toList)
          input_files := [("auth.py").toList, ("session.py").toList]
          git_commit_ready := true },
        {
          description := ("Ship release notes").toList
          status := stCOMPLETED
          assigned_worker := some (("qa_bot").toList) }] : List SwarmTask)) =
      some (((([{
          description := ("Fix login flow").toList
          status := stPENDING
          assigned_worker := some (("engineer").toList)
          input_files := [("auth.py").toList, ("session.py").toList]
          git_commit_ready := true },
        {
          description := ("Ship release notes").toList
          status := stCOMPLETED
          assigned_worker := some (("qa_bot").toList) }] : List SwarmTask)).filter
            (fun t => decide (t.status ≠ stCOMPLETED ∧ t.status ≠ stIN_PROGRESS))).map parsedOf ++
          ((([{
          description := ("Fix login flow").toList
          status := stPENDING
          assigned_worker := some (("engineer").toList)
          input_files := [("auth.py").toList, ("session.py").toList]
          git_commit_ready := true },
        {
          description := ("Ship release notes").toList
          status := stCOMPLETED
          assigned_worker := some (("qa_bot").toList) }] : List SwarmTask)).filter
            (fun t => decide (t.status ≠ stCOMPLETED ∧ t.status = stIN_PROGRESS))).map parsedOf ++
          ((([{
          description := ("Fix login flow").toList
          status := stPENDING
          assigned_worker := some (("engineer").toList)
          input_files := [("auth.py").toList, ("session.py").toList]
          git_commit_ready := true },
        {
          description := ("Ship release notes").toList
          status := stCOMPLETED
          assigned_worker := some (("qa_bot").toList) }] : List SwarmTask)).filter
            (fun t => decide (t.status = stCOMPLETED))).map parsedOf) ∧
      ∀ t : SwarmTask, SwarmTask.view (parsedOf t) = SwarmTask.view t) :=
  ⟨by decide, markdownBridge_roundTrip _ (by decide)⟩

unseal pyReplace in
/-- C8 counterexample: a FAILED task falsifies the claim as stated.  Every
character of its description is grammar-clean, yet `generate_markdown`
renders FAILED as an unchecked `- [ ]` box in the Todo section, which
`parse_file` reads back as PENDING: the status (and hence the task
content) is not preserved. -/
theorem markdownBridge_failed_counterexample :
    (MarkdownBridge.parseFile (MarkdownBridge.generateMarkdown
        [{
          description := ("Fix login").toList
          status := stFAILED
          assigned_worker := some (("engineer").toList) }])).map
        (List.map (fun t => t.status)) = some [stPENDING] ∧ ¬ stFAILED = stPENDING := by
  decide
